import Mathlib

/-!
Resumable log aggregation (`second_solution/json/process.go`)

A shallow embedding of the aggregation pipeline of `process.go`:

* Go maps are association lists read with `lookup` and written with `set`
  (a nil map and an empty map are both `[]`: the code only reads, ranges over
  and, after its `u.Events == nil` guard, writes them);
* `int`, `int32` and `int64` values are `Int`, with an explicit wrap where the
  code does arithmetic on them;
* a panic is the result `none`;
* the three channels of `readData` are the list of messages the reader sends,
  in the order it sends them (the channels are unbuffered and have one sender
  and one receiver, so the consumer sees exactly this order);
* the library functions `json.Unmarshal` and `json.MarshalIndent` are
  parameters of the definitions that call them.
-/

namespace SecondSolution

/-! ## Go maps -/

/-- Read `m[k]` together with the `ok` flag of the two-valued form. -/
def lookup {K V : Type} [DecidableEq K] (k : K) : List (K × V) → Option V
  | [] => none
  | (k', v) :: m => if k' = k then some v else lookup k m

/-- The assignment `m[k] = v`. -/
def set {K V : Type} [DecidableEq K] (k : K) (v : V) : List (K × V) → List (K × V)
  | [] => [(k, v)]
  | (k', v') :: m => if k' = k then (k, v) :: m else (k', v') :: set k v m

/-! ## Machine integers -/

/-- Two's complement wrap of a 64-bit signed integer (`int`, `int64`). -/
def wrapInt64 (x : Int) : Int := (x + 2 ^ 63) % 2 ^ 64 - 2 ^ 63

/-! ## Data model -/

/-- A file content or a line of it: a list of bytes. -/
abbrev Bytes := List Nat

/-- A value of type `interface{}` decoded from JSON: a string, or any other
JSON value, kept by the text that `fmt` prints for it under `%s` (such as
`%!s(float64=1)`). The aggregation never inspects it. -/
inductive Value where
  | str (s : String)
  | other (raw : String)
deriving DecidableEq, Repr

/-- The struct `row`: one decoded line of the log (`RowType` is its field `Type`). -/
structure row where
  UserID : String := ""
  TimeStamp : Int := 0
  RowType : String := ""
  EventName : String := ""
  Data : List (String × Value) := []
  Id : String := ""
deriving DecidableEq, Repr

/-- The struct `stat`: what is accumulated for one user. -/
structure stat where
  Events : List (String × Int) := []
  Attributes : List (String × Value) := []
  Time : Int := 0
deriving DecidableEq, Repr

/-- The table `users` of type `map[int32]*stat`. -/
abbrev Users := List (Int × stat)

/-- The struct `rowAndPosition`. -/
structure rowAndPosition where
  r : row
  filePosition : Int
deriving DecidableEq, Repr

/-! ## `convertToInt32` -/

/-- The call `strconv.ParseInt(s, 10, 32)`: an optional sign, then one or more
decimal digits, with a value in the range of `int32`; `none` is an error. -/
def parseInt32 (s : String) : Option Int :=
  match s.toList with
  | [] => none
  | c :: cs =>
    let neg : Bool := c = '-'
    let ds : List Char := if c = '+' ∨ c = '-' then cs else c :: cs
    if ds = [] ∨ ¬ (ds.all Char.isDigit) then none
    else
      let un : Nat := ds.foldl (fun a d => 10 * a + (d.toNat - 48)) 0
      if ¬ neg ∧ un ≥ 2 ^ 31 then none
      else if neg ∧ un > 2 ^ 31 then none
      else some (if neg then - (un : Int) else (un : Int))

/-- The function `convertToInt32`: the empty string gives `-1`, a string that
does not parse panics (`none`). -/
def convertToInt32 (s : String) : Option Int :=
  if s = "" then some (-1) else parseInt32 s

/-! ## `processRows` -/

/-- The body of `case row := <-rowC` in `processRows` (lines 153 to 186) on the
user table and the set `uniqueIDs`. The two `if r.Type == ...` blocks exclude
each other, so the second one is the `else` of the first. -/
def processRow (users : Users) (uniqueIDs : List String) (r : row) :
    Option (Users × List String) :=
  match convertToInt32 r.UserID with
  | none => none
  | some userId =>
    if userId = -1 then some (users, uniqueIDs)
    else if r.RowType = "event" then
      match lookup userId users with
      | some u =>
        if r.Id ∈ uniqueIDs then some (users, uniqueIDs)
        else
          let count := wrapInt64 ((lookup r.EventName u.Events).getD 0 + 1)
          let u' : stat := { u with Events := set r.EventName count u.Events }
          some (set userId u' users, r.Id :: uniqueIDs)
      | none =>
        some (set userId { Attributes := [], Events := [(r.EventName, 1)] } users, uniqueIDs)
    else if r.RowType = "attributes" then
      match lookup userId users with
      | some u =>
        if u.Time < r.TimeStamp then
          some (set userId { u with Attributes := r.Data, Time := r.TimeStamp } users, uniqueIDs)
        else some (users, uniqueIDs)
      | none =>
        some (set userId { Time := r.TimeStamp, Attributes := r.Data, Events := [] } users,
          uniqueIDs)
    else some (users, uniqueIDs)

/-- The fold of `processRow` over a list of rows, from left to right. -/
def foldRows (users : Users) (uniqueIDs : List String) :
    List row → Option (Users × List String)
  | [] => some (users, uniqueIDs)
  | r :: rs =>
    match processRow users uniqueIDs r with
    | none => none
    | some (users', uniqueIDs') => foldRows users' uniqueIDs' rs

/-- One message of the reader: a row on `rowC` or a non-nil error on `errC`.
The end of the list is the signal on `doneC`. -/
inductive msg where
  | row (rp : rowAndPosition)
  | err
deriving DecidableEq, Repr

/-- The arguments of one call of `writeToCache`. -/
structure snapshot where
  records : Int
  filePosition : Int
  users : Users
deriving DecidableEq, Repr

/-- The local state of `processRows`, with the calls of `writeToCache` made so
far (oldest first). -/
structure consumer where
  users : Users
  uniqueIDs : List String
  filePosition : Int
  totalRows : Int
  writes : List snapshot
deriving DecidableEq, Repr

/-- One turn of the `for`/`select` loop of `processRows` on a received message,
with `recordsToCache` the interval: an error panics, a row is folded and then
`totalRows % recordsToCache == 0` decides on the checkpoint (a zero interval
panics on the division). -/
def processMsg (recordsToCache : Int) (c : consumer) : msg → Option consumer
  | msg.err => none
  | msg.row rp =>
    let totalRows := wrapInt64 (c.totalRows + 1)
    match processRow c.users c.uniqueIDs rp.r with
    | none => none
    | some (users, uniqueIDs) =>
      if recordsToCache = 0 then none
      else if totalRows % recordsToCache = 0 then
        some { users := users, uniqueIDs := uniqueIDs, filePosition := rp.filePosition,
               totalRows := totalRows,
               writes := c.writes ++ [{ records := totalRows, filePosition := rp.filePosition,
                                        users := users }] }
      else
        some { users := users, uniqueIDs := uniqueIDs, filePosition := rp.filePosition,
               totalRows := totalRows, writes := c.writes }

/-- The loop of `processRows` from a given local state. -/
def loop (recordsToCache : Int) (c : consumer) : List msg → Option consumer
  | [] => some c
  | m :: ms =>
    match processMsg recordsToCache c m with
    | none => none
    | some c' => loop recordsToCache c' ms

/-- The function `processRows`: `uniqueIDs` starts empty, `filePosition` at
zero and `totalRows` at `records`. -/
def processRows (recordsToCache : Int) (records : Int) (users : Users) (msgs : List msg) :
    Option consumer :=
  loop recordsToCache
    { users := users, uniqueIDs := [], filePosition := 0, totalRows := records, writes := [] }
    msgs

/-- The table a checkpoint holds after `processRows` has come to `c`: the
arguments `writeToCache` is called with there. -/
def checkpointOf (c : consumer) : snapshot :=
  { records := c.totalRows, filePosition := c.filePosition, users := c.users }

/-- A new run of `Process` on a loaded checkpoint: `processRows` gets the
records count and the user table of the checkpoint, and its own empty
`uniqueIDs`. -/
def resume (recordsToCache : Int) (cp : snapshot) (msgs : List msg) : Option consumer :=
  processRows recordsToCache cp.records cp.users msgs

/-- The set `uniqueIDs` that `processRows` holds after a run over `rows` from
an empty checkpoint (empty when that run panics). -/
def seenIDs (recordsToCache : Int) (rows : List rowAndPosition) : List String :=
  match processRows recordsToCache 0 [] (rows.map msg.row) with
  | some c => c.uniqueIDs
  | none => []

/-- The events mapping of a user, read at one event name: `none` when the user
is not in the table, `some none` when the user has no such counter. -/
def eventCount (users : Users) (userId : Int) (name : String) : Option (Option Int) :=
  (lookup userId users).map (fun u => lookup name u.Events)

/-! ## `readData` -/

/-- The constant `bufio.MaxScanTokenSize`. -/
def maxScanTokenSize : Nat := 64 * 1024

/-- The helper `dropCR` of `bufio`: drop one trailing carriage return. -/
def dropCR (data : Bytes) : Bytes :=
  if data.getLast? = some 13 then data.dropLast else data

/-- The tokens `scanner.Scan()` / `scanner.Bytes()` deliver with the default
split function `bufio.ScanLines`; `cur` is the part of the current line already
read. A line ends at a newline (byte 10) or at the end of the input, loses one
trailing carriage return, and the scan stops without a token at a line that
does not fit the buffer. -/
def scanLines (cur : Bytes) : Bytes → List Bytes
  | [] =>
    if cur = [] then [] else if cur.length < maxScanTokenSize then [dropCR cur] else []
  | b :: bs =>
    if b = 10 then
      if cur.length < maxScanTokenSize then dropCR cur :: scanLines [] bs else []
    else scanLines (cur ++ [b]) bs

/-- The loop `for scanner.Scan()` of `readData` from the running `totalBytes`;
`unmarshal` is `json.Unmarshal` into a fresh `row`, giving the row and whether
it reported an error. -/
def readLines (unmarshal : Bytes → row × Bool) (totalBytes : Int) : List Bytes → List msg
  | [] => []
  | contents :: rest =>
    let totalBytes' := wrapInt64 (totalBytes + ((contents.length : Int) + 1))
    let errs : List msg := if (unmarshal contents).2 then [msg.err] else []
    errs ++ msg.row { r := (unmarshal contents).1, filePosition := totalBytes' }
      :: readLines unmarshal totalBytes' rest

/-- The function `readData` on the content of the log: what it sends on its
channels, in order. A negative `seekTo` makes `file.Seek` fail (panic). -/
def readData (unmarshal : Bytes → row × Bool) (seekTo : Int) (file : Bytes) :
    Option (List msg) :=
  if seekTo < 0 then none
  else some (readLines unmarshal seekTo (scanLines [] (file.drop seekTo.toNat)))

/-- The file positions delivered on `rowC`, in order. -/
def positions : List msg → List Int
  | [] => []
  | msg.row rp :: ms => rp.filePosition :: positions ms
  | msg.err :: ms => positions ms

/-! ## `writeToCache` -/

/-- The text `fmt.Sprintf("%d", n)` as bytes. -/
def decimal (n : Int) : Bytes := (toString n).toList.map Char.toNat

/-- The content of a file opened with `os.O_CREATE|os.O_WRONLY` (no
`os.O_TRUNC`) after one `Write` of `data` at offset zero, `old` being the
content before (empty for a file just created). -/
def writeAtStart (old data : Bytes) : Bytes := data ++ old.drop data.length

/-- The slice `bytesToWrite` of `writeToCache`; `marshalIndent` is
`json.MarshalIndent(users, " ", " ")`. -/
def bytesToWrite (marshalIndent : Users → Bytes) (records filePosition : Int) (users : Users) :
    Bytes :=
  decimal records ++ [10] ++ decimal filePosition ++ [10] ++ marshalIndent users

/-- The function `writeToCache` on the content of the file `.cache`. -/
def writeToCache (marshalIndent : Users → Bytes) (old : Bytes) (records filePosition : Int)
    (users : Users) : Bytes :=
  writeAtStart old (bytesToWrite marshalIndent records filePosition users)

/-! ## Sample records -/

/-- An event record as decoded from a line with `user_id`, `type`, `name` and `id`. -/
def eventRow (userID name id : String) : row :=
  { UserID := userID, RowType := "event", EventName := name, Id := id }

/-- An attributes record as decoded from a line with `user_id`, `type`, `data`
and `timestamp`. -/
def attributesRow (userID : String) (data : List (String × Value)) (timestamp : Int) : row :=
  { UserID := userID, RowType := "attributes", Data := data, TimeStamp := timestamp }

/-- A row with the file position the reader delivers with it. -/
def at_ (r : row) (filePosition : Int) : msg := msg.row { r := r, filePosition := filePosition }

end SecondSolution

namespace SecondSolution

/-! ## `readCache` -/

/-- The call `strconv.ParseInt(s, 10, 64)` on the bytes of a line: an optional
sign, then one or more decimal digits, with a value in the range of `int64`;
`none` is an error. -/
def parseInt64 (line : Bytes) : Option Int :=
  match line with
  | [] => none
  | c :: cs =>
    let neg : Bool := c = 45
    let ds : Bytes := if c = 43 ∨ c = 45 then cs else c :: cs
    if ds = [] ∨ ¬ (ds.all (fun d => 48 ≤ d ∧ d ≤ 57)) then none
    else
      let un : Nat := ds.foldl (fun a d => 10 * a + (d - 48)) 0
      if ¬ neg ∧ un ≥ 2 ^ 63 then none
      else if neg ∧ un > 2 ^ 63 then none
      else some (if neg then - (un : Int) else (un : Int))

/-- The bytes before the first newline and, when there is a newline, the bytes
after it. -/
def splitLine : Bytes → Bytes × Option Bytes
  | [] => ([], none)
  | b :: bs => if b = 10 then ([], some bs) else (b :: (splitLine bs).1, (splitLine bs).2)

/-- The size of the buffer of `bufio.NewReader`. -/
def defaultBufSize : Nat := 4096

/-- The method `ReadLine` of `bufio.Reader` on the unread bytes: `none` at the
end of the file, else the line without its end-of-line bytes and the bytes that
remain. A line that does not fit the buffer is cut at the size of the buffer
(the flag `isPrefix`, which `readCache` ignores). -/
def readLine (data : Bytes) : Option (Bytes × Bytes) :=
  if data = [] then none
  else if defaultBufSize ≤ data.length ∧ 10 ∉ data.take defaultBufSize then
    if (data.take defaultBufSize).getLast? = some 13 then
      some ((data.take defaultBufSize).dropLast, data.drop (defaultBufSize - 1))
    else some (data.take defaultBufSize, data.drop defaultBufSize)
  else
    match splitLine data with
    | (line, some rest) =>
      some (if line.getLast? = some 13 then line.dropLast else line, rest)
    | (line, none) => some (line, [])

/-- The function `readCache`: `file` is the content of `.cache` (`none` when
the file does not exist), `users` the table passed in, and `unmarshal` is
`json.Unmarshal(total, &users)`, giving the table it leaves or `none` for an
error. The result is the records count, the file position and the table;
`none` is a panic. -/
def readCache (unmarshal : Bytes → Users → Option Users) (file : Option Bytes) (users : Users) :
    Option (Int × Int × Users) :=
  match file with
  | none => some (0, 0, users)
  | some data =>
    match readLine data with
    | none => some (0, 0, users)
    | some (line1, rest1) =>
      match parseInt64 line1 with
      | none => none
      | some records =>
        match readLine rest1 with
        | none => none
        | some (line2, rest2) =>
          match parseInt64 line2 with
          | none => none
          | some filePosition =>
            match unmarshal rest2 users with
            | none => none
            | some users' => some (records, filePosition, users')

/-! ## The report -/

/-- The comparison `keys[i] < keys[j]` of two Go strings: the order of their
bytes, which is the order of their characters. -/
def strLess (a b : String) : Prop := a.toList < b.toList

/-- The keys of a Go map, in the order the `range` loop meets them. -/
def keys {K V : Type} (m : List (K × V)) : List K := m.map Prod.fst

/-- The function `sortAttrKeys`: the keys, put in order by `sort.SliceStable`. -/
def sortAttrKeys (m : List (String × Value)) : List String :=
  (keys m).insertionSort (fun a b => a.toList ≤ b.toList)

/-- The function `sortEventKeys`. -/
def sortEventKeys (m : List (String × Int)) : List String :=
  (keys m).insertionSort (fun a b => a.toList ≤ b.toList)

/-- The text `fmt.Sprintf("%s", v)` of an attribute value: a string is printed
as it is, any other value by the text it is kept by, and the nil interface of a
missing key in the bad-verb form. -/
def sprintS : Option Value → String
  | some (Value.str s) => s
  | some (Value.other raw) => raw
  | none => "%!s(<nil>)"

/-- The call `strings.Join(out, sep)`. -/
def join (sep : String) : List String → String
  | [] => ""
  | [a] => a
  | a :: b :: rest => a ++ sep ++ join sep (b :: rest)

/-- The slice `out` of `stat.String`: the attribute fields, then the event
fields. -/
def fields (s : stat) : List String :=
  (sortAttrKeys s.Attributes).map (fun k => k ++ "=" ++ sprintS (lookup k s.Attributes))
    ++ (sortEventKeys s.Events).map
      (fun k => k ++ "=" ++ toString ((lookup k s.Events).getD 0))

/-- The method `String` of `*stat`. -/
def stat.String (s : stat) : String := join "," (fields s) ++ "\n"

/-- What one `fmt.Fprintf(f, "%d,%s", u, users[u])` of `writeResultToFile`
writes for a user of the table. -/
def reportLine (u : Int) (s : stat) : String := toString u ++ "," ++ s.String

/-- The function `writeResultToFile`: the content of `out.log`, which is
removed before it is written. A user id without an entry prints the nil
pointer. -/
def writeResultToFile (userIds : List Int) (users : Users) : String :=
  match userIds with
  | [] => ""
  | u :: rest =>
    (match lookup u users with
      | some s => reportLine u s
      | none => toString u ++ ",<nil>") ++ writeResultToFile rest users

/-- The slice `userIds` of `Process`: the keys of the table, put in ascending
order by `sort.SliceStable`. -/
def userIds (users : Users) : List Int :=
  (keys users).insertionSort (fun a b => a ≤ b)

/-- The line format the report is described by: each field after a comma. -/
def commaFields : List String → String
  | [] => ""
  | f :: fs => "," ++ f ++ commaFields fs

/-! ## Checkpoints by the interval -/

/-- The checkpoints the run has to write by the rule of the interval, for the
initial count `c`: one after the row `i` (counted from 1) whenever `c + i` is a
multiple of the interval, holding `c + i`, the position delivered with that row
and the table folded from the first `i` rows. -/
def checkpointsByRule (recordsToCache c : Int) (users : Users) (uniqueIDs : List String)
    (rows : List rowAndPosition) : List snapshot :=
  (List.range rows.length).filterMap (fun (j : Nat) =>
    if (c + ((j : Int) + 1)) % recordsToCache = 0 then
      match rows[j]?, foldRows users uniqueIDs ((rows.take (j + 1)).map rowAndPosition.r) with
      | some rp, some s =>
        some { records := c + ((j : Int) + 1), filePosition := rp.filePosition, users := s.1 }
      | _, _ => none
    else none)

/-! ## A sample log -/

/-- The bytes of the log line
`{"user_id":"5","type":"event","name":"login","id":"a"}`. -/
def sampleLine : Bytes :=
  "\x7b\"user_id\":\"5\",\"type\":\"event\",\"name\":\"login\",\"id\":\"a\"\x7d".toList.map
    Char.toNat

/-- A stat with two string attributes and two events. -/
def sampleStat : stat :=
  { Events := [("login", 2), ("a", 1)],
    Attributes := [("plan", Value.str "gold"), ("age", Value.str "3")] }

/-- A user table with one user. -/
def sampleUsers : Users := [(5, { Events := [("login", 2)] })]

/-- The bytes `json.MarshalIndent(users, " ", " ")` gives for `sampleUsers`. -/
def sampleJSON : Bytes :=
  ("\x7b\n  \"5\": \x7b\n   \"Events\": \x7b\n    \"login\": 2\n   \x7d,\n"
    ++ "   \"Attributes\": \x7b\x7d,\n   \"Time\": 0\n  \x7d\n \x7d").toList.map Char.toNat

/-- An encoder that agrees with `json.MarshalIndent` on `sampleUsers`. -/
def sampleMarshalIndent (_ : Users) : Bytes := sampleJSON

/-- A decoder into an empty table that agrees with `json.Unmarshal` on
`sampleJSON`; every other text counts as failing. -/
def sampleUnmarshalUsers (total : Bytes) (_ : Users) : Option Users :=
  if total = sampleJSON then some sampleUsers else none

/-- A decoder that agrees with `json.Unmarshal` on `sampleLine`, which decodes,
and on the line `x`, which does not; every other line counts as failing. -/
def sampleUnmarshal (line : Bytes) : row × Bool :=
  if line = sampleLine then (eventRow "5" "login" "a", false) else ({}, true)

end SecondSolution

/-! # `first_solution/main.go` -/

namespace FirstSolution

open SecondSolution (lookup set wrapInt64)

/-- The struct `Record` (`RecType` is its field `Type`). -/
structure Record where
  ID : String := ""
  RecType : String := ""
  Name : String := ""
  UserID : String := ""
  Data : List (String × String) := []
  Timestamp : Int := 0
deriving DecidableEq, Repr

/-- The struct `Attribute`. -/
structure Attribute where
  Timestamp : Int
  Value : String
deriving DecidableEq, Repr

/-- The struct `Event`. -/
structure Event where
  IDs : List String
  Count : Int
deriving DecidableEq, Repr

/-- The struct `Stat`. -/
structure Stat where
  Attributes : List (String × Attribute) := []
  Events : List (String × Event) := []
deriving DecidableEq, Repr

/-- The function `duplicated`. -/
def duplicated (ids : List String) (id : String) : Bool :=
  match ids with
  | [] => false
  | i :: rest => if i = id then true else duplicated rest id

/-- The loop `for name, value := range message.Data` of `Processing` on the
attributes of the user. -/
def updateAttributes (timestamp : Int) (attributes : List (String × Attribute)) :
    List (String × String) → List (String × Attribute)
  | [] => attributes
  | (name, value) :: rest =>
    match lookup name attributes with
    | some old =>
      if timestamp > old.Timestamp then
        updateAttributes timestamp
          (set name { Timestamp := timestamp, Value := value } attributes) rest
      else updateAttributes timestamp attributes rest
    | none =>
      updateAttributes timestamp
        (set name { Timestamp := timestamp, Value := value } attributes) rest

/-- The body of the loop of `Processing` on one decoded record (lines 75 to
104). -/
def processRecord (stats : List (String × Stat)) (message : Record) : List (String × Stat) :=
  let stats1 : List (String × Stat) :=
    match lookup message.UserID stats with
    | some _ => stats
    | none => set message.UserID { Attributes := [], Events := [] } stats
  let st : Stat := (lookup message.UserID stats1).getD {}
  if message.RecType = "event" then
    match lookup message.Name st.Events with
    | none =>
      let events := set message.Name { IDs := [message.ID], Count := 1 } st.Events
      set message.UserID { Attributes := st.Attributes, Events := events } stats1
    | some event =>
      if duplicated event.IDs message.ID then stats1
      else
        let events := set message.Name
          { IDs := event.IDs ++ [message.ID], Count := wrapInt64 (event.Count + 1) } st.Events
        set message.UserID { Attributes := st.Attributes, Events := events } stats1
  else if message.RecType = "attributes" then
    let attributes := updateAttributes message.Timestamp st.Attributes message.Data
    set message.UserID { Attributes := attributes, Events := st.Events } stats1
  else stats1

/-- The function `Processing` on the records the lines of the file decode to,
in order. -/
def Processing (stats : List (String × Stat)) (messages : List Record) : List (String × Stat) :=
  match messages with
  | [] => stats
  | message :: rest => Processing (processRecord stats message) rest

/-- The record ids of the event records of a user and an event name in a log. -/
def eventIDs (userID name : String) (messages : List Record) : List String :=
  (messages.filter
    (fun m => m.RecType = "event" ∧ m.UserID = userID ∧ m.Name = name)).map Record.ID

/-- The entry `stats[userID].Events[name]`, when the user and the event are
there. -/
def eventOf (stats : List (String × Stat)) (userID name : String) : Option Event :=
  (lookup userID stats).bind (fun st => lookup name st.Events)

/-- An event entry that counts the record ids `ids`, each once, with at most
`n` of them: no entry when there is no id, else an `IDs` list without
repetition that holds exactly these ids and a `Count` equal to its length. -/
def counted (entry : Option Event) (ids : List String) (n : Nat) : Prop :=
  match entry with
  | none => ids = []
  | some ev =>
    ev.IDs.Nodup ∧ ev.Count = (ev.IDs.length : Int) ∧ (∀ x, x ∈ ev.IDs ↔ x ∈ ids) ∧
      ev.IDs ≠ [] ∧ ev.IDs.length ≤ n

/-- A log of three login events of user 5 with the ids a, a, b and one
attributes record. -/
def sampleMessages : List Record :=
  [{ ID := "a", RecType := "event", Name := "login", UserID := "5" },
   { ID := "a", RecType := "event", Name := "login", UserID := "5" },
   { RecType := "attributes", UserID := "5", Data := [("plan", "gold")], Timestamp := 3 },
   { ID := "b", RecType := "event", Name := "login", UserID := "5" }]

end FirstSolution

/-! # Theorems -/

namespace SecondSolution

/-! ## Association lists -/

theorem lookup_set_self {K V : Type} [DecidableEq K] (k : K) (v : V) (m : List (K × V)) :
    lookup k (set k v m) = some v := by
  induction m with
  | nil => simp [set, lookup]
  | cons p m ih =>
    obtain ⟨k', v'⟩ := p
    by_cases h : k' = k
    · simp [set, lookup, h]
    · simp [set, lookup, h, ih]

theorem lookup_set_ne {K V : Type} [DecidableEq K] {k k' : K} (v : V) (m : List (K × V))
    (h : k ≠ k') : lookup k' (set k v m) = lookup k' m := by
  induction m with
  | nil => simp [set, lookup, h]
  | cons p m ih =>
    obtain ⟨k'', v''⟩ := p
    by_cases h1 : k'' = k
    · subst h1
      simp [set, lookup, h]
    · by_cases h2 : k'' = k'
      · subst h2
        simp [set, lookup, h1]
      · simp [set, lookup, h1, h2, ih]

/-! ## Event counting (C1, C4, C5) -/

/-- C1, evaluated on the log of the scenario: from an empty user table and an
empty dedup set, the three event records of user 5 / event login with the ids
a, a, b leave the count of login at 3, not at the 2 distinct ids: the record
that creates the user is counted without its id entering `uniqueIDs`, so its
repetition is counted again. -/
theorem processRows_login_scenario :
    (processRows 100 0 []
        [at_ (eventRow "5" "login" "a") 53, at_ (eventRow "5" "login" "a") 106,
         at_ (eventRow "5" "login" "b") 159]).map
        (fun c => (c.users, c.uniqueIDs))
      = some ([(5, { Events := [("login", 3)] })], ["b", "a"]) := by
  decide

/-- C4, evaluated on a user that is not yet in the table: folding the event
record once leaves login at 1 and the dedup set empty, folding it twice in a
row leaves login at 2. -/
theorem processRow_twice_new_user :
    processRow [] [] (eventRow "5" "login" "a") = some ([(5, { Events := [("login", 1)] })], [])
    ∧ foldRows [] [] [eventRow "5" "login" "a", eventRow "5" "login" "a"]
        = some ([(5, { Events := [("login", 2)] })], ["a"]) := by
  decide

/-- C5, evaluated on a state that two event records of user 1 lead to: the id
a is in the dedup set and user 5 is not in the table, and folding an event
record of user 5 with the id a adds user 5 with a login counter of 1. -/
theorem processRow_seen_id_new_user :
    foldRows [] [] [eventRow "1" "login" "x", eventRow "1" "login" "a"]
        = some ([(1, { Events := [("login", 2)] })], ["a"])
    ∧ eventCount [(1, { Events := [("login", 2)] })] 5 "login" = none
    ∧ (processRow [(1, { Events := [("login", 2)] })] ["a"] (eventRow "5" "login" "a")).map
        (fun s => eventCount s.1 5 "login") = some (some (some 1)) := by
  decide

/-! ## Attributes (C7) -/

/-- C7, evaluated on a user created by an event record: an attributes record
of that user with the timestamp 0 (or a negative one) leaves the attributes
empty and the stored time at 0, while the same record is taken when it is the
one that creates the user. -/
theorem processRow_first_attributes_after_event :
    foldRows [] [] [eventRow "3" "login" "a", attributesRow "3" [("plan", Value.str "gold")] 0]
        = some ([(3, { Events := [("login", 1)], Attributes := [], Time := 0 })], [])
    ∧ foldRows [] [] [eventRow "3" "login" "a", attributesRow "3" [("plan", Value.str "gold")] (-5)]
        = some ([(3, { Events := [("login", 1)], Attributes := [], Time := 0 })], [])
    ∧ processRow [] [] (attributesRow "3" [("plan", Value.str "gold")] (-5))
        = some ([(3, { Attributes := [("plan", Value.str "gold")], Time := -5 })], []) := by
  decide

/-! ## Byte offsets (C3) -/

/-- C3, evaluated on two logs of one line: for the three bytes `a`, carriage
return, newline read from offset 0 the position delivered with the line is 2,
one less than the 3 bytes of the line with its terminator; for the single byte
`a` without a newline it is 2, one more than the size of the log. -/
theorem readData_position_crlf (unmarshal : Bytes → row × Bool) :
    (readData unmarshal 0 [97, 13, 10]).map positions = some [2]
    ∧ ([97, 13, 10] : Bytes).length = 3
    ∧ (readData unmarshal 0 [97]).map positions = some [2]
    ∧ ([97] : Bytes).length = 1 := by
  refine ⟨?_, rfl, ?_, rfl⟩
  · by_cases h : (unmarshal [97]).2 <;>
      simp [readData, scanLines, readLines, positions, dropCR, maxScanTokenSize, h] <;> decide
  · by_cases h : (unmarshal [97]).2 <;>
      simp [readData, scanLines, readLines, positions, dropCR, maxScanTokenSize, h] <;> decide

/-! ## Checkpoint file (C10) -/

/-- C10, evaluated on every previous content that is longer than the new
checkpoint: after `writeToCache` the file holds the new checkpoint followed by
the bytes of the previous content beyond its length; on the previous content
`12\n345\n{}` and the snapshot (1, 7, empty table) serialized as `{}` the file
ends as `1\n7\n{}\n{}`. -/
theorem writeToCache_keeps_tail (marshalIndent : Users → Bytes) (records filePosition : Int)
    (users : Users) (rest : Bytes) :
    writeToCache marshalIndent
        (bytesToWrite marshalIndent records filePosition users ++ rest) records filePosition users
      = bytesToWrite marshalIndent records filePosition users ++ rest
    ∧ writeToCache (fun _ => [123, 125]) [49, 50, 10, 51, 52, 53, 10, 123, 125] 1 7 []
      = [49, 10, 55, 10, 123, 125, 10, 123, 125] := by
  constructor
  · simp [writeToCache, writeAtStart]
  · decide

end SecondSolution

namespace SecondSolution

/-! ## The step on an attributes record -/

theorem processRow_attributes_absent (users : Users) (uniqueIDs : List String) (r : row)
    (userId : Int) (h : convertToInt32 r.UserID = some userId) (hid : userId ≠ -1)
    (ht : r.RowType = "attributes") (hu : lookup userId users = none) :
    processRow users uniqueIDs r
      = some (set userId { Time := r.TimeStamp, Attributes := r.Data, Events := [] } users,
          uniqueIDs) := by
  simp [processRow, h, hid, ht, hu]

theorem processRow_attributes_newer (users : Users) (uniqueIDs : List String) (r : row)
    (userId : Int) (u : stat) (h : convertToInt32 r.UserID = some userId) (hid : userId ≠ -1)
    (ht : r.RowType = "attributes") (hu : lookup userId users = some u)
    (hlt : u.Time < r.TimeStamp) :
    processRow users uniqueIDs r
      = some (set userId { u with Attributes := r.Data, Time := r.TimeStamp } users,
          uniqueIDs) := by
  simp [processRow, h, hid, ht, hu, hlt]

theorem processRow_attributes_older (users : Users) (uniqueIDs : List String) (r : row)
    (userId : Int) (u : stat) (h : convertToInt32 r.UserID = some userId)
    (ht : r.RowType = "attributes") (hu : lookup userId users = some u)
    (hle : r.TimeStamp ≤ u.Time) :
    processRow users uniqueIDs r = some (users, uniqueIDs) := by
  have hnot : ¬ u.Time < r.TimeStamp := not_lt.mpr hle
  by_cases hid : userId = -1
  · simp [processRow, h, hid]
  · simp [processRow, h, hid, ht, hu, hnot]

/-- C8: for two attributes records r1, r2 of the same user with timestamps
t1 < t2, (a) from every user table without that user, folding r1 then r2
succeeds and leaves the attributes of the user equal to the data of r2, and
(b) from every user table and dedup set, folding r2 succeeds and folding r1
after it gives the very same state. -/
theorem attribute_recency (users : Users) (uniqueIDs : List String) (r1 r2 : row)
    (userId : Int)
    (h1 : convertToInt32 r1.UserID = some userId) (h2 : convertToInt32 r2.UserID = some userId)
    (hid : userId ≠ -1)
    (ht1 : r1.RowType = "attributes") (ht2 : r2.RowType = "attributes")
    (hlt : r1.TimeStamp < r2.TimeStamp) :
    (lookup userId users = none →
      ∃ users', foldRows users uniqueIDs [r1, r2] = some (users', uniqueIDs) ∧
        (lookup userId users').map stat.Attributes = some r2.Data)
    ∧ ∃ s, processRow users uniqueIDs r2 = some s ∧ foldRows users uniqueIDs [r2, r1] = some s := by
  constructor
  · intro hu
    have e1 := processRow_attributes_absent users uniqueIDs r1 userId h1 hid ht1 hu
    have e2 := processRow_attributes_newer
      (set userId { Time := r1.TimeStamp, Attributes := r1.Data, Events := [] } users)
      uniqueIDs r2 userId _ h2 hid ht2 (lookup_set_self _ _ _) hlt
    refine ⟨set userId { Events := [], Attributes := r2.Data, Time := r2.TimeStamp }
      (set userId { Time := r1.TimeStamp, Attributes := r1.Data, Events := [] } users), ?_, ?_⟩
    · simp only [foldRows, e1, e2]
    · simp [lookup_set_self]
  · cases hu : lookup userId users with
    | none =>
      have e2 := processRow_attributes_absent users uniqueIDs r2 userId h2 hid ht2 hu
      have e1 := processRow_attributes_older
        (set userId { Time := r2.TimeStamp, Attributes := r2.Data, Events := [] } users)
        uniqueIDs r1 userId _ h1 ht1 (lookup_set_self _ _ _) (le_of_lt hlt)
      exact ⟨_, e2, by simp only [foldRows, e2, e1]⟩
    | some u =>
      by_cases hnew : u.Time < r2.TimeStamp
      · have e2 := processRow_attributes_newer users uniqueIDs r2 userId u h2 hid ht2 hu hnew
        have e1 := processRow_attributes_older
          (set userId { u with Attributes := r2.Data, Time := r2.TimeStamp } users)
          uniqueIDs r1 userId _ h1 ht1 (lookup_set_self _ _ _) (le_of_lt hlt)
        exact ⟨_, e2, by simp only [foldRows, e2, e1]⟩
      · have hle : r2.TimeStamp ≤ u.Time := not_lt.mp hnew
        have e2 := processRow_attributes_older users uniqueIDs r2 userId u h2 ht2 hu hle
        have e1 := processRow_attributes_older users uniqueIDs r1 userId u h1 ht1 hu
          (le_trans (le_of_lt hlt) hle)
        exact ⟨_, e2, by simp only [foldRows, e2, e1]⟩

/-- C8 at the records silver with timestamp 5 and gold with timestamp 10 of
user 3, from the empty table. -/
theorem attribute_recency_witness :
    (lookup 3 ([] : Users) = none →
      ∃ users', foldRows [] []
          [attributesRow "3" [("plan", Value.str "silver")] 5,
           attributesRow "3" [("plan", Value.str "gold")] 10] = some (users', []) ∧
        (lookup 3 users').map stat.Attributes
          = some (attributesRow "3" [("plan", Value.str "gold")] 10).Data)
    ∧ ∃ s, processRow [] [] (attributesRow "3" [("plan", Value.str "gold")] 10) = some s ∧
        foldRows [] []
          [attributesRow "3" [("plan", Value.str "gold")] 10,
           attributesRow "3" [("plan", Value.str "silver")] 5] = some s :=
  attribute_recency [] [] (attributesRow "3" [("plan", Value.str "silver")] 5)
    (attributesRow "3" [("plan", Value.str "gold")] 10) 3
    (by decide) (by decide) (by decide) (by decide) (by decide) (by decide)

end SecondSolution

namespace SecondSolution

/-! ## The loop and the fold -/

theorem loop_rows (recordsToCache : Int) (hK : recordsToCache ≠ 0) (rows : List rowAndPosition) :
    ∀ c : consumer,
      (loop recordsToCache c (rows.map msg.row)).map (fun c' => (c'.users, c'.uniqueIDs))
        = foldRows c.users c.uniqueIDs (rows.map rowAndPosition.r) := by
  induction rows with
  | nil => intro c; simp [loop, foldRows]
  | cons rp rows ih =>
    intro c
    simp only [List.map_cons, loop, foldRows, processMsg]
    cases hp : processRow c.users c.uniqueIDs rp.r with
    | none => simp
    | some s =>
      obtain ⟨users, uniqueIDs⟩ := s
      simp only [hK, if_false]
      split_ifs <;> simp [ih]

/-! ## Highest timestamp wins (C6) -/

theorem foldRows_attributes (userId : Int) (hid : userId ≠ -1) (rs : List row) :
    ∀ (users : Users) (uniqueIDs : List String) (u : stat),
      lookup userId users = some u →
      (∀ x ∈ rs, convertToInt32 x.UserID = some userId ∧ x.RowType = "attributes") →
      ∃ (users' : Users) (u' : stat), foldRows users uniqueIDs rs = some (users', uniqueIDs) ∧
        lookup userId users' = some u' ∧
        ((u'.Attributes = u.Attributes ∧ u'.Time = u.Time ∧ ∀ x ∈ rs, x.TimeStamp ≤ u.Time) ∨
          ∃ (i : Nat) (w : row), rs[i]? = some w ∧ u'.Attributes = w.Data ∧
            u'.Time = w.TimeStamp ∧ u.Time < w.TimeStamp ∧
            (∀ x ∈ rs, x.TimeStamp ≤ w.TimeStamp) ∧
            ∀ (j : Nat) (x : row), j < i → rs[j]? = some x → x.TimeStamp < w.TimeStamp) := by
  induction rs with
  | nil =>
    intro users uniqueIDs u hu _
    exact ⟨users, u, rfl, hu, Or.inl ⟨rfl, rfl, by simp⟩⟩
  | cons r rs ih =>
    intro users uniqueIDs u hu hall
    have hr := hall r (List.mem_cons_self _ _)
    have hrest : ∀ x ∈ rs, convertToInt32 x.UserID = some userId ∧ x.RowType = "attributes" :=
      fun x hx => hall x (List.mem_cons_of_mem _ hx)
    by_cases hnew : u.Time < r.TimeStamp
    · -- the record replaces the attributes
      have e := processRow_attributes_newer users uniqueIDs r userId u hr.1 hid hr.2 hu hnew
      obtain ⟨users', u', hf, hl, hcase⟩ :=
        ih (set userId { u with Attributes := r.Data, Time := r.TimeStamp } users) uniqueIDs
          { u with Attributes := r.Data, Time := r.TimeStamp } (lookup_set_self _ _ _) hrest
      refine ⟨users', u', by simp only [foldRows, e]; exact hf, hl, Or.inr ?_⟩
      rcases hcase with ⟨ha, ht, hmax⟩ | ⟨i, w, hi, ha, ht, hlt, hmax, hfirst⟩
      · refine ⟨0, r, by simp, ha, ht, hnew, ?_, ?_⟩
        · intro x hx
          rcases List.mem_cons.mp hx with rfl | hx
          · exact le_refl _
          · exact hmax x hx
        · intro j x hj
          exact absurd hj (Nat.not_lt_zero j)
      · have hlt' : r.TimeStamp < w.TimeStamp := hlt
        refine ⟨i + 1, w, by simpa using hi, ha, ht, lt_trans hnew hlt', ?_, ?_⟩
        · intro x hx
          rcases List.mem_cons.mp hx with rfl | hx
          · exact le_of_lt hlt'
          · exact hmax x hx
        · intro j x hj hx
          cases j with
          | zero =>
            have : r = x := by simpa using hx
            subst this
            exact hlt'
          | succ j => exact hfirst j x (by omega) (by simpa using hx)
    · -- the record is dropped
      have hle : r.TimeStamp ≤ u.Time := not_lt.mp hnew
      have e := processRow_attributes_older users uniqueIDs r userId u hr.1 hr.2 hu hle
      obtain ⟨users', u', hf, hl, hcase⟩ := ih users uniqueIDs u hu hrest
      refine ⟨users', u', by simp only [foldRows, e]; exact hf, hl, ?_⟩
      rcases hcase with ⟨ha, ht, hmax⟩ | ⟨i, w, hi, ha, ht, hlt, hmax, hfirst⟩
      · refine Or.inl ⟨ha, ht, ?_⟩
        intro x hx
        rcases List.mem_cons.mp hx with rfl | hx
        · exact hle
        · exact hmax x hx
      · refine Or.inr ⟨i + 1, w, by simpa using hi, ha, ht, hlt, ?_, ?_⟩
        · intro x hx
          rcases List.mem_cons.mp hx with rfl | hx
          · exact le_of_lt (lt_of_le_of_lt hle hlt)
          · exact hmax x hx
        · intro j x hj hx
          cases j with
          | zero =>
            have : r = x := by simpa using hx
            subst this
            exact lt_of_le_of_lt hle hlt
          | succ j => exact hfirst j x (by omega) (by simpa using hx)

theorem foldRows_attributes_from_empty (userId : Int) (hid : userId ≠ -1) (r : row)
    (rs : List row) (users : Users) (uniqueIDs : List String)
    (hu : lookup userId users = none)
    (hall : ∀ x ∈ r :: rs, convertToInt32 x.UserID = some userId ∧ x.RowType = "attributes") :
    ∃ (users' : Users) (u' : stat) (i : Nat) (w : row),
      foldRows users uniqueIDs (r :: rs) = some (users', uniqueIDs) ∧
      lookup userId users' = some u' ∧ (r :: rs)[i]? = some w ∧
      u'.Attributes = w.Data ∧ u'.Time = w.TimeStamp ∧
      (∀ x ∈ r :: rs, x.TimeStamp ≤ w.TimeStamp) ∧
      ∀ (j : Nat) (x : row), j < i → (r :: rs)[j]? = some x → x.TimeStamp < w.TimeStamp := by
  have hr := hall r (List.mem_cons_self _ _)
  have hrest : ∀ x ∈ rs, convertToInt32 x.UserID = some userId ∧ x.RowType = "attributes" :=
    fun x hx => hall x (List.mem_cons_of_mem _ hx)
  have e := processRow_attributes_absent users uniqueIDs r userId hr.1 hid hr.2 hu
  obtain ⟨users', u', hf, hl, hcase⟩ :=
    foldRows_attributes userId hid rs
      (set userId { Time := r.TimeStamp, Attributes := r.Data, Events := [] } users) uniqueIDs
      { Time := r.TimeStamp, Attributes := r.Data, Events := [] } (lookup_set_self _ _ _) hrest
  rcases hcase with ⟨ha, ht, hmax⟩ | ⟨i, w, hi, ha, ht, hlt, hmax, hfirst⟩
  · refine ⟨users', u', 0, r, by simp only [foldRows, e]; exact hf, hl, by simp, ha, ht, ?_, ?_⟩
    · intro x hx
      rcases List.mem_cons.mp hx with rfl | hx
      · exact le_refl _
      · exact hmax x hx
    · intro j x hj
      exact absurd hj (Nat.not_lt_zero j)
  · have hlt' : r.TimeStamp < w.TimeStamp := hlt
    refine ⟨users', u', i + 1, w, by simp only [foldRows, e]; exact hf, hl, by simpa using hi,
      ha, ht, ?_, ?_⟩
    · intro x hx
      rcases List.mem_cons.mp hx with rfl | hx
      · exact le_of_lt hlt'
      · exact hmax x hx
    · intro j x hj hx
      cases j with
      | zero =>
        have : r = x := by simpa using hx
        subst this
        exact hlt'
      | succ j => exact hfirst j x (by omega) (by simpa using hx)

end SecondSolution

namespace SecondSolution

/-- C6: from an empty user table, for every non-empty log of attributes
records of one user (and every checkpoint interval other than zero),
`processRows` returns, and the attributes of the user are the data of a record
w of the log that carries the maximum timestamp and is earlier than every
other record with that timestamp, and the stored time is the timestamp of w;
gold with timestamp 10 followed by silver with timestamp 5 ends with
`plan = gold`. -/
theorem attributes_highest_timestamp_wins (recordsToCache records : Int)
    (hK : recordsToCache ≠ 0) (rows : List rowAndPosition) (userId : Int) (hid : userId ≠ -1)
    (hne : rows ≠ [])
    (hall : ∀ rp ∈ rows,
      convertToInt32 rp.r.UserID = some userId ∧ rp.r.RowType = "attributes") :
    (∃ (c : consumer) (u : stat) (i : Nat) (w : rowAndPosition),
      processRows recordsToCache records [] (rows.map msg.row) = some c ∧
      lookup userId c.users = some u ∧ rows[i]? = some w ∧
      u.Attributes = w.r.Data ∧ u.Time = w.r.TimeStamp ∧
      (∀ rp ∈ rows, rp.r.TimeStamp ≤ w.r.TimeStamp) ∧
      ∀ (j : Nat) (rp : rowAndPosition), j < i → rows[j]? = some rp →
        rp.r.TimeStamp < w.r.TimeStamp)
    ∧ (processRows 100 0 []
        [at_ (attributesRow "3" [("plan", Value.str "gold")] 10) 71,
         at_ (attributesRow "3" [("plan", Value.str "silver")] 5) 143]).map consumer.users
      = some [(3, { Attributes := [("plan", Value.str "gold")], Time := 10 })] := by
  refine ⟨?_, by decide⟩
  cases rows with
  | nil => exact absurd rfl hne
  | cons rp rows =>
    have hall' : ∀ x ∈ (rp :: rows).map rowAndPosition.r,
        convertToInt32 x.UserID = some userId ∧ x.RowType = "attributes" := by
      intro x hx
      obtain ⟨y, hy, rfl⟩ := List.mem_map.mp hx
      exact hall y hy
    obtain ⟨users', u', i, w, hf, hl, hi, ha, ht, hmax, hfirst⟩ :=
      foldRows_attributes_from_empty userId hid rp.r (rows.map rowAndPosition.r) [] []
        rfl hall'
    have hloop : (processRows recordsToCache records [] ((rp :: rows).map msg.row)).map
        (fun c' => (c'.users, c'.uniqueIDs)) = some (users', []) :=
      (loop_rows recordsToCache hK (rp :: rows) _).trans hf
    obtain ⟨c, hc, hcu⟩ := Option.map_eq_some'.mp hloop
    have hcusers : c.users = users' := congrArg Prod.fst hcu
    have hi' : ((rp :: rows).map rowAndPosition.r)[i]? = some w := hi
    rw [List.getElem?_map] at hi'
    obtain ⟨wp, hwp, rfl⟩ := Option.map_eq_some'.mp hi'
    refine ⟨c, u', i, wp, hc, by rw [hcusers]; exact hl, hwp, ha, ht, ?_, ?_⟩
    · intro x hx
      exact hmax x.r (List.mem_map.mpr ⟨x, hx, rfl⟩)
    · intro j x hj hx
      refine hfirst j x.r hj ?_
      show ((rp :: rows).map rowAndPosition.r)[j]? = some x.r
      rw [List.getElem?_map, hx]
      rfl

/-- C6 at the log gold with timestamp 10, silver with timestamp 5 of user 3,
with the checkpoint interval 100. -/
theorem attributes_highest_timestamp_wins_witness :
    (∃ (c : consumer) (u : stat) (i : Nat) (w : rowAndPosition),
      processRows 100 0 []
        ([{ r := attributesRow "3" [("plan", Value.str "gold")] 10, filePosition := 71 },
          { r := attributesRow "3" [("plan", Value.str "silver")] 5, filePosition := 143 }].map
          msg.row) = some c ∧
      lookup 3 c.users = some u ∧
      ([{ r := attributesRow "3" [("plan", Value.str "gold")] 10, filePosition := 71 },
        { r := attributesRow "3" [("plan", Value.str "silver")] 5, filePosition := 143 }] :
          List rowAndPosition)[i]? = some w ∧
      u.Attributes = w.r.Data ∧ u.Time = w.r.TimeStamp ∧
      (∀ rp ∈ ([{ r := attributesRow "3" [("plan", Value.str "gold")] 10, filePosition := 71 },
        { r := attributesRow "3" [("plan", Value.str "silver")] 5, filePosition := 143 }] :
          List rowAndPosition), rp.r.TimeStamp ≤ w.r.TimeStamp) ∧
      ∀ (j : Nat) (rp : rowAndPosition), j < i →
        ([{ r := attributesRow "3" [("plan", Value.str "gold")] 10, filePosition := 71 },
          { r := attributesRow "3" [("plan", Value.str "silver")] 5, filePosition := 143 }] :
            List rowAndPosition)[j]? = some rp →
        rp.r.TimeStamp < w.r.TimeStamp) :=
  (attributes_highest_timestamp_wins 100 0 (by decide)
    [{ r := attributesRow "3" [("plan", Value.str "gold")] 10, filePosition := 71 },
     { r := attributesRow "3" [("plan", Value.str "silver")] 5, filePosition := 143 }] 3
    (by decide) (by decide) (by decide)).1

end SecondSolution

namespace SecondSolution

/-! ## Order of two event records (C9) -/

theorem lookup_set {K V : Type} [DecidableEq K] (k k' : K) (v : V) (m : List (K × V)) :
    lookup k' (set k v m) = if k = k' then some v else lookup k' m := by
  by_cases h : k = k'
  · subst h
    simp [lookup_set_self]
  · simp [h, lookup_set_ne v m h]

theorem eventCount_set (users : Users) (u v : Int) (st : stat) (n : String) :
    eventCount (set u st users) v n
      = if u = v then some (lookup n st.Events) else eventCount users v n := by
  unfold eventCount
  rw [lookup_set]
  split_ifs <;> rfl

theorem wrapInt64_one : wrapInt64 1 = 1 := by decide

theorem processRow_skip (users : Users) (uniqueIDs : List String) (r : row)
    (h : convertToInt32 r.UserID = some (-1)) :
    processRow users uniqueIDs r = some (users, uniqueIDs) := by
  simp [processRow, h]

theorem processRow_event_some (users : Users) (uniqueIDs : List String) (r : row) (u : Int)
    (h : convertToInt32 r.UserID = some u) (ht : r.RowType = "event") :
    ∃ s, processRow users uniqueIDs r = some s := by
  by_cases hid : u = -1
  · subst hid
    exact ⟨_, processRow_skip users uniqueIDs r h⟩
  · cases hl : lookup u users with
    | none => simp [processRow, h, hid, ht, hl]
    | some st =>
      by_cases hi : r.Id ∈ uniqueIDs <;> simp [processRow, h, hid, ht, hl, hi]

theorem processRow_event_new (users : Users) (uniqueIDs : List String) (r : row) (u : Int)
    (h : convertToInt32 r.UserID = some u) (hid : u ≠ -1) (ht : r.RowType = "event")
    (hl : lookup u users = none) :
    processRow users uniqueIDs r
      = some (set u { Attributes := [], Events := [(r.EventName, 1)] } users, uniqueIDs) := by
  simp [processRow, h, hid, ht, hl]

theorem processRow_event_seen (users : Users) (uniqueIDs : List String) (r : row) (u : Int)
    (st : stat) (h : convertToInt32 r.UserID = some u) (hid : u ≠ -1) (ht : r.RowType = "event")
    (hl : lookup u users = some st) (hi : r.Id ∈ uniqueIDs) :
    processRow users uniqueIDs r = some (users, uniqueIDs) := by
  simp [processRow, h, hid, ht, hl, hi]

theorem processRow_event_count (users : Users) (uniqueIDs : List String) (r : row) (u : Int)
    (st : stat) (h : convertToInt32 r.UserID = some u) (hid : u ≠ -1) (ht : r.RowType = "event")
    (hl : lookup u users = some st) (hi : r.Id ∉ uniqueIDs) :
    processRow users uniqueIDs r
      = some (set u
          { Events := (set r.EventName
              (wrapInt64 ((lookup r.EventName st.Events).getD 0 + 1)) st.Events),
            Attributes := st.Attributes, Time := st.Time }
          users, r.Id :: uniqueIDs) := by
  simp [processRow, h, hid, ht, hl, hi]

/-- The user table after an event record of a user other than `-1`, by the
entry of its user alone: every other entry is the one before. -/
theorem processRow_event_shape (users : Users) (uniqueIDs : List String) (r : row) (u : Int)
    (h : convertToInt32 r.UserID = some u) (hid : u ≠ -1) (ht : r.RowType = "event") :
    ∃ (users' : Users) (ids' : List String),
      processRow users uniqueIDs r = some (users', ids') ∧
      (∀ v, v ≠ u → lookup v users' = lookup v users) ∧
      (∀ x, x ≠ r.Id → (x ∈ ids' ↔ x ∈ uniqueIDs)) ∧
      (∀ n, eventCount users' u n =
        match lookup u users with
        | none => some (if r.EventName = n then some 1 else none)
        | some st =>
          if r.Id ∈ uniqueIDs then some (lookup n st.Events)
          else some (if r.EventName = n
            then some (wrapInt64 ((lookup r.EventName st.Events).getD 0 + 1))
            else lookup n st.Events)) := by
  cases hl : lookup u users with
  | none =>
    refine ⟨_, _, processRow_event_new users uniqueIDs r u h hid ht hl, ?_, ?_, ?_⟩
    · intro v hv
      exact lookup_set_ne _ _ (fun e => hv e.symm)
    · intro x _
      exact Iff.rfl
    · intro n
      simp [eventCount_set, lookup]
  | some st =>
    by_cases hi : r.Id ∈ uniqueIDs
    · refine ⟨_, _, processRow_event_seen users uniqueIDs r u st h hid ht hl hi, ?_, ?_, ?_⟩
      · intro v _
        rfl
      · intro x _
        exact Iff.rfl
      · intro n
        simp [eventCount, hl, hi]
    · refine ⟨_, _, processRow_event_count users uniqueIDs r u st h hid ht hl hi, ?_, ?_, ?_⟩
      · intro v hv
        exact lookup_set_ne _ _ (fun e => hv e.symm)
      · intro x hx
        simp [hx]
      · intro n
        simp [eventCount_set, lookup_set, hi]

theorem order_independence_two_users (users : Users) (uniqueIDs : List String)
    (r1 r2 : row) (u1 u2 : Int)
    (h1 : convertToInt32 r1.UserID = some u1) (h2 : convertToInt32 r2.UserID = some u2)
    (hid1 : u1 ≠ -1) (hid2 : u2 ≠ -1)
    (ht1 : r1.RowType = "event") (ht2 : r2.RowType = "event")
    (hids : r1.Id ≠ r2.Id) (hu : u1 ≠ u2) :
    ∃ s12 s21, foldRows users uniqueIDs [r1, r2] = some s12 ∧
      foldRows users uniqueIDs [r2, r1] = some s21 ∧
      ∀ (userId : Int) (name : String),
        eventCount s12.1 userId name = eventCount s21.1 userId name := by
  have hu' : u2 ≠ u1 := fun h => hu h.symm
  have hids' : r2.Id ≠ r1.Id := fun h => hids h.symm
  obtain ⟨U1, S1, e1, f1, m1, c1⟩ := processRow_event_shape users uniqueIDs r1 u1 h1 hid1 ht1
  obtain ⟨U12, S12, e12, f12, _, c12⟩ := processRow_event_shape U1 S1 r2 u2 h2 hid2 ht2
  obtain ⟨U2, S2, e2, f2, m2, c2⟩ := processRow_event_shape users uniqueIDs r2 u2 h2 hid2 ht2
  obtain ⟨U21, S21, e21, f21, _, c21⟩ := processRow_event_shape U2 S2 r1 u1 h1 hid1 ht1
  refine ⟨(U12, S12), (U21, S21), by simp only [foldRows, e1, e12],
    by simp only [foldRows, e2, e21], ?_⟩
  intro v n
  by_cases hv2 : v = u2
  · subst hv2
    have a : eventCount U21 v n = eventCount U2 v n := by
      unfold eventCount
      rw [f21 v hu']
    show eventCount U12 v n = eventCount U21 v n
    rw [a, c12 n, c2 n, f1 v hu']
    simp only [m1 r2.Id hids']
  · by_cases hv1 : v = u1
    · subst hv1
      have a : eventCount U12 v n = eventCount U1 v n := by
        unfold eventCount
        rw [f12 v hu]
      show eventCount U12 v n = eventCount U21 v n
      rw [a, c21 n, c1 n, f2 v hu]
      simp only [m2 r1.Id hids]
    · show eventCount U12 v n = eventCount U21 v n
      unfold eventCount
      rw [f12 v hv2, f1 v hv1, f21 v hv1, f2 v hv2]

theorem order_independence_one_user (users : Users) (uniqueIDs : List String)
    (r1 r2 : row) (u1 : Int)
    (h1 : convertToInt32 r1.UserID = some u1) (h2 : convertToInt32 r2.UserID = some u1)
    (hid1 : u1 ≠ -1)
    (ht1 : r1.RowType = "event") (ht2 : r2.RowType = "event")
    (hname : r1.EventName ≠ r2.EventName) (hids : r1.Id ≠ r2.Id)
    (hnew : lookup u1 users = none → r1.Id ∉ uniqueIDs ∧ r2.Id ∉ uniqueIDs) :
    ∃ s12 s21, foldRows users uniqueIDs [r1, r2] = some s12 ∧
      foldRows users uniqueIDs [r2, r1] = some s21 ∧
      ∀ (userId : Int) (name : String),
        eventCount s12.1 userId name = eventCount s21.1 userId name := by
  have hname' : r2.EventName ≠ r1.EventName := fun h => hname h.symm
  have hids' : r2.Id ≠ r1.Id := fun h => hids h.symm
  cases hl : lookup u1 users with
  | none =>
    obtain ⟨hi1, hi2⟩ := hnew hl
    simp [foldRows, processRow, h1, h2, ht1, ht2, hid1, hl, hi1, hi2, lookup_set, lookup,
      eventCount_set, hname, hname', hids, hids', wrapInt64_one]
    all_goals (intro v n; split_ifs <;> simp_all)
  | some st =>
    by_cases hi1 : r1.Id ∈ uniqueIDs <;> by_cases hi2 : r2.Id ∈ uniqueIDs <;>
    simp [foldRows, processRow, h1, h2, ht1, ht2, hid1, hl, hi1, hi2, lookup_set, lookup,
      eventCount_set, hname, hname', hids, hids']
    all_goals (intro v n; split_ifs <;> simp_all)

/-- C9 as stated fails on two event records of user 5 with the event names
login and logout and the same record id a, from a table that holds user 5: the
second record of either order is dropped as a repetition, so login then logout
leaves login at 1 and no logout counter, and logout then login leaves no login
counter. -/
theorem order_independence_same_id_counterexample :
    (eventRow "5" "login" "a").EventName ≠ (eventRow "5" "logout" "a").EventName
    ∧ (foldRows [(5, { Events := [("signup", 1)] })] []
        [eventRow "5" "login" "a", eventRow "5" "logout" "a"]).map
        (fun s => eventCount s.1 5 "login") = some (some (some 1))
    ∧ (foldRows [(5, { Events := [("signup", 1)] })] []
        [eventRow "5" "logout" "a", eventRow "5" "login" "a"]).map
        (fun s => eventCount s.1 5 "login") = some (some none) := by
  decide

/-- C9, amended: for every user table, every dedup set and every two event
records with valid user ids, different event names and different record ids,
where, if both are of one user who is not yet in the table, neither id is in
the dedup set, folding them in either order succeeds and yields the same users
with the same events count mapping for every user. -/
theorem order_independence_distinct_ids (users : Users) (uniqueIDs : List String)
    (r1 r2 : row) (u1 u2 : Int)
    (h1 : convertToInt32 r1.UserID = some u1) (h2 : convertToInt32 r2.UserID = some u2)
    (ht1 : r1.RowType = "event") (ht2 : r2.RowType = "event")
    (hname : r1.EventName ≠ r2.EventName) (hids : r1.Id ≠ r2.Id)
    (hnew : u1 = u2 → lookup u1 users = none → r1.Id ∉ uniqueIDs ∧ r2.Id ∉ uniqueIDs) :
    ∃ s12 s21, foldRows users uniqueIDs [r1, r2] = some s12 ∧
      foldRows users uniqueIDs [r2, r1] = some s21 ∧
      ∀ (userId : Int) (name : String),
        eventCount s12.1 userId name = eventCount s21.1 userId name := by
  by_cases hid1 : u1 = -1
  · subst hid1
    obtain ⟨s, hs⟩ := processRow_event_some users uniqueIDs r2 u2 h2 ht2
    obtain ⟨users', ids'⟩ := s
    refine ⟨(users', ids'), (users', ids'), ?_, ?_, fun _ _ => rfl⟩
    · simp only [foldRows, processRow_skip users uniqueIDs r1 h1, hs]
    · simp only [foldRows, hs, processRow_skip users' ids' r1 h1]
  by_cases hid2 : u2 = -1
  · subst hid2
    obtain ⟨s, hs⟩ := processRow_event_some users uniqueIDs r1 u1 h1 ht1
    obtain ⟨users', ids'⟩ := s
    refine ⟨(users', ids'), (users', ids'), ?_, ?_, fun _ _ => rfl⟩
    · simp only [foldRows, hs, processRow_skip users' ids' r2 h2]
    · simp only [foldRows, processRow_skip users uniqueIDs r2 h2, hs]
  by_cases hu : u1 = u2
  · subst hu
    exact order_independence_one_user users uniqueIDs r1 r2 u1 h1 h2 hid1 ht1 ht2 hname hids
      (hnew rfl)
  · exact order_independence_two_users users uniqueIDs r1 r2 u1 u2 h1 h2 hid1 hid2 ht1 ht2
      hids hu

/-- C9, amended, at the records login with id a and logout with id b of user
5, from a table that holds user 5. -/
theorem order_independence_distinct_ids_witness :
    ∃ s12 s21,
      foldRows [(5, { Events := [("signup", 1)] })] []
        [eventRow "5" "login" "a", eventRow "5" "logout" "b"] = some s12 ∧
      foldRows [(5, { Events := [("signup", 1)] })] []
        [eventRow "5" "logout" "b", eventRow "5" "login" "a"] = some s21 ∧
      ∀ (userId : Int) (name : String),
        eventCount s12.1 userId name = eventCount s21.1 userId name :=
  order_independence_distinct_ids [(5, { Events := [("signup", 1)] })] []
    (eventRow "5" "login" "a") (eventRow "5" "logout" "b") 5 5
    (by decide) (by decide) (by decide) (by decide) (by decide) (by decide) (by decide)

end SecondSolution

namespace SecondSolution

/-! ## Resume from a checkpoint (C2) -/

theorem loop_append (recordsToCache : Int) (a b : List msg) :
    ∀ c : consumer,
      loop recordsToCache c (a ++ b)
        = (loop recordsToCache c a).bind (fun c' => loop recordsToCache c' b) := by
  induction a with
  | nil => intro c; simp [loop]
  | cons m a ih =>
    intro c
    simp only [List.cons_append, loop]
    cases processMsg recordsToCache c m with
    | none => simp
    | some c' => simp [ih]

/-- The step reads the dedup set only at the id of an event record: two dedup
sets that agree there give the same user table, and sets that agree wherever
the two did. -/
theorem processRow_congr (users : Users) (S1 S2 : List String) (r : row)
    (hagree : r.RowType = "event" → (r.Id ∈ S1 ↔ r.Id ∈ S2)) :
    (processRow users S1 r = none ∧ processRow users S2 r = none) ∨
    ∃ (users' : Users) (S1' S2' : List String),
      processRow users S1 r = some (users', S1') ∧ processRow users S2 r = some (users', S2') ∧
      ∀ x, (x ∈ S1 ↔ x ∈ S2) → (x ∈ S1' ↔ x ∈ S2') := by
  cases hc : convertToInt32 r.UserID with
  | none => left; simp [processRow, hc]
  | some u =>
    right
    by_cases hid : u = -1
    · exact ⟨users, S1, S2, by simp [processRow, hc, hid], by simp [processRow, hc, hid],
        fun _ h => h⟩
    by_cases ht : r.RowType = "event"
    · cases hl : lookup u users with
      | none =>
        exact ⟨_, S1, S2, processRow_event_new users S1 r u hc hid ht hl,
          processRow_event_new users S2 r u hc hid ht hl, fun _ h => h⟩
      | some st =>
        by_cases hi : r.Id ∈ S1
        · have hi2 : r.Id ∈ S2 := (hagree ht).mp hi
          exact ⟨users, S1, S2, processRow_event_seen users S1 r u st hc hid ht hl hi,
            processRow_event_seen users S2 r u st hc hid ht hl hi2, fun _ h => h⟩
        · have hi2 : r.Id ∉ S2 := fun h => hi ((hagree ht).mpr h)
          refine ⟨_, r.Id :: S1, r.Id :: S2,
            processRow_event_count users S1 r u st hc hid ht hl hi,
            processRow_event_count users S2 r u st hc hid ht hl hi2, ?_⟩
          intro x hx
          simp [hx]
    · by_cases ht' : r.RowType = "attributes"
      · cases hl : lookup u users with
        | none =>
          exact ⟨_, S1, S2, processRow_attributes_absent users S1 r u hc hid ht' hl,
            processRow_attributes_absent users S2 r u hc hid ht' hl, fun _ h => h⟩
        | some st =>
          by_cases hlt : st.Time < r.TimeStamp
          · exact ⟨_, S1, S2, processRow_attributes_newer users S1 r u st hc hid ht' hl hlt,
              processRow_attributes_newer users S2 r u st hc hid ht' hl hlt, fun _ h => h⟩
          · exact ⟨users, S1, S2,
              processRow_attributes_older users S1 r u st hc ht' hl (not_lt.mp hlt),
              processRow_attributes_older users S2 r u st hc ht' hl (not_lt.mp hlt),
              fun _ h => h⟩
      · exact ⟨users, S1, S2, by simp [processRow, hc, hid, ht, ht'],
          by simp [processRow, hc, hid, ht, ht'], fun _ h => h⟩

theorem loop_congr (recordsToCache : Int) (rows : List rowAndPosition) :
    ∀ c1 c2 : consumer, c1.users = c2.users → c1.totalRows = c2.totalRows →
      (∀ rp ∈ rows, rp.r.RowType = "event" →
        (rp.r.Id ∈ c1.uniqueIDs ↔ rp.r.Id ∈ c2.uniqueIDs)) →
      (loop recordsToCache c1 (rows.map msg.row)).map consumer.users
        = (loop recordsToCache c2 (rows.map msg.row)).map consumer.users := by
  induction rows with
  | nil =>
    intro c1 c2 hu _ _
    simp [loop, hu]
  | cons rp rows ih =>
    intro c1 c2 hu ht hagree
    have hrest := fun x (hx : x ∈ rows) => hagree x (List.mem_cons_of_mem _ hx)
    simp only [List.map_cons, loop, processMsg]
    rw [← hu, ← ht]
    rcases processRow_congr c1.users c1.uniqueIDs c2.uniqueIDs rp.r
        (hagree rp (List.mem_cons_self _ _)) with ⟨e1, e2⟩ | ⟨users', S1', S2', e1, e2, hS⟩
    · simp [e1, e2]
    · simp only [e1, e2]
      by_cases hK : recordsToCache = 0
      · simp [hK]
      · simp only [hK, if_false]
        split_ifs
        all_goals
          refine ih _ _ rfl rfl ?_
          intro x hx hxt
          exact hS x.r.Id (hrest x hx hxt)

/-- C2 as stated fails on the log of three event records of user 5 / login
with the ids x, a, a, the interval 2 and the split point 2: one run from the
empty checkpoint ends with login at 2; the run over the first two records
writes the checkpoint (2, 106, login at 2), and the new run on that checkpoint
starts with an empty dedup set and counts the third record again, ending with
login at 3. -/
theorem resume_equivalence_counterexample :
    (processRows 2 0 []
        [at_ (eventRow "5" "login" "x") 53, at_ (eventRow "5" "login" "a") 106,
         at_ (eventRow "5" "login" "a") 159]).map consumer.users
      = some [(5, { Events := [("login", 2)] })]
    ∧ (processRows 2 0 []
        [at_ (eventRow "5" "login" "x") 53, at_ (eventRow "5" "login" "a") 106]).map
        consumer.writes
      = some [{ records := 2, filePosition := 106, users := [(5, { Events := [("login", 2)] })] }]
    ∧ (resume 2 { records := 2, filePosition := 106, users := [(5, { Events := [("login", 2)] })] }
        [at_ (eventRow "5" "login" "a") 159]).map consumer.users
      = some [(5, { Events := [("login", 3)] })] := by
  decide

/-- C2, amended: for every interval, every log and every split point N such
that no event record after the first N carries an id that is in the dedup set
after the first N, folding the whole log in one run from the empty checkpoint
yields the same final user table (or the same panic) as folding the first N
records, taking the checkpoint (records processed, byte offset, user table)
there and folding the remaining records in a new run on that checkpoint. -/
theorem resume_equivalence_fresh_ids (recordsToCache : Int) (rows : List rowAndPosition)
    (N : Nat)
    (hfresh : ∀ rp ∈ rows.drop N, rp.r.RowType = "event" →
      rp.r.Id ∉ seenIDs recordsToCache (rows.take N)) :
    (processRows recordsToCache 0 [] (rows.map msg.row)).map consumer.users
      = ((processRows recordsToCache 0 [] ((rows.take N).map msg.row)).bind
          (fun c => resume recordsToCache (checkpointOf c) ((rows.drop N).map msg.row))).map
          consumer.users := by
  have hsplit : rows.map msg.row = (rows.take N).map msg.row ++ (rows.drop N).map msg.row := by
    rw [← List.map_append, List.take_append_drop]
  have hone : processRows recordsToCache 0 [] (rows.map msg.row)
      = (processRows recordsToCache 0 [] ((rows.take N).map msg.row)).bind
          (fun c => loop recordsToCache c ((rows.drop N).map msg.row)) := by
    unfold processRows
    rw [hsplit, loop_append]
  rw [hone]
  cases hp : processRows recordsToCache 0 [] ((rows.take N).map msg.row) with
  | none => rfl
  | some c =>
    have hseen : seenIDs recordsToCache (rows.take N) = c.uniqueIDs := by
      unfold seenIDs
      rw [hp]
    simp only [Option.some_bind, resume, checkpointOf, processRows]
    refine loop_congr recordsToCache (rows.drop N) _ _ rfl rfl ?_
    intro rp hrp ht
    have hnot := hfresh rp hrp ht
    rw [hseen] at hnot
    simp [hnot]

/-- C2, amended, at the log of three event records of user 5 / login with the
ids x, a, b, the interval 2 and the split point 2. -/
theorem resume_equivalence_fresh_ids_witness :
    (processRows 2 0 []
        ([{ r := eventRow "5" "login" "x", filePosition := 53 },
          { r := eventRow "5" "login" "a", filePosition := 106 },
          { r := eventRow "5" "login" "b", filePosition := 159 }].map msg.row)).map
        consumer.users
      = ((processRows 2 0 []
          ((([{ r := eventRow "5" "login" "x", filePosition := 53 },
              { r := eventRow "5" "login" "a", filePosition := 106 },
              { r := eventRow "5" "login" "b", filePosition := 159 }] :
                List rowAndPosition).take 2).map msg.row)).bind
          (fun c => resume 2 (checkpointOf c)
            ((([{ r := eventRow "5" "login" "x", filePosition := 53 },
                { r := eventRow "5" "login" "a", filePosition := 106 },
                { r := eventRow "5" "login" "b", filePosition := 159 }] :
                  List rowAndPosition).drop 2).map msg.row))).map consumer.users :=
  resume_equivalence_fresh_ids 2
    [{ r := eventRow "5" "login" "x", filePosition := 53 },
     { r := eventRow "5" "login" "a", filePosition := 106 },
     { r := eventRow "5" "login" "b", filePosition := 159 }] 2 (by decide)

end SecondSolution

namespace SecondSolution

/-! ## Frame of the step (C19) -/

theorem processRow_other_type (users : Users) (uniqueIDs : List String) (r : row) (u : Int)
    (h : convertToInt32 r.UserID = some u)
    (ht : r.RowType ≠ "event") (ht' : r.RowType ≠ "attributes") :
    processRow users uniqueIDs r = some (users, uniqueIDs) := by
  by_cases hid : u = -1
  · simp [processRow, h, hid]
  · simp [processRow, h, hid, ht, ht']

theorem processRow_step_frame (users : Users) (uniqueIDs : List String) (r : row) (userId : Int)
    (h : convertToInt32 r.UserID = some userId) :
    ∃ (users' : Users) (uniqueIDs' : List String),
      processRow users uniqueIDs r = some (users', uniqueIDs') ∧
      (∀ v, v ≠ userId → lookup v users' = lookup v users) ∧
      (r.RowType ≠ "event" → r.RowType ≠ "attributes" →
        users' = users ∧ uniqueIDs' = uniqueIDs) := by
  by_cases ht : r.RowType = "event"
  · have hne : r.RowType ≠ "attributes" := by rw [ht]; decide
    by_cases hid : userId = -1
    · subst hid
      exact ⟨users, uniqueIDs, processRow_skip users uniqueIDs r h, fun _ _ => rfl,
        fun h1 _ => absurd ht h1⟩
    · obtain ⟨users', ids', e, f, _, _⟩ := processRow_event_shape users uniqueIDs r userId h hid ht
      exact ⟨users', ids', e, f, fun h1 _ => absurd ht h1⟩
  · by_cases ht' : r.RowType = "attributes"
    · by_cases hid : userId = -1
      · subst hid
        exact ⟨users, uniqueIDs, processRow_skip users uniqueIDs r h, fun _ _ => rfl,
          fun _ h2 => absurd ht' h2⟩
      · cases hl : lookup userId users with
        | none =>
          refine ⟨_, uniqueIDs, processRow_attributes_absent users uniqueIDs r userId h hid ht' hl,
            ?_, fun _ h2 => absurd ht' h2⟩
          intro v hv
          exact lookup_set_ne _ _ (fun e => hv e.symm)
        | some st =>
          by_cases hlt : st.Time < r.TimeStamp
          · refine ⟨_, uniqueIDs,
              processRow_attributes_newer users uniqueIDs r userId st h hid ht' hl hlt,
              ?_, fun _ h2 => absurd ht' h2⟩
            intro v hv
            exact lookup_set_ne _ _ (fun e => hv e.symm)
          · exact ⟨users, uniqueIDs,
              processRow_attributes_older users uniqueIDs r userId st h ht' hl (not_lt.mp hlt),
              fun _ _ => rfl, fun _ h2 => absurd ht' h2⟩
    · exact ⟨users, uniqueIDs, processRow_other_type users uniqueIDs r userId h ht ht',
        fun _ _ => rfl, fun _ _ => ⟨rfl, rfl⟩⟩

/-- C19: for every user table, dedup set and record whose user id resolves,
the fold step succeeds and leaves the entry of every user other than the user
of the record as it was, and for a record whose type is neither `event` nor
`attributes` it leaves the whole user table and the dedup set as they were. -/
theorem processRow_frame (users : Users) (uniqueIDs : List String) (r : row) (userId : Int)
    (h : convertToInt32 r.UserID = some userId) :
    ∃ (users' : Users) (uniqueIDs' : List String),
      processRow users uniqueIDs r = some (users', uniqueIDs') ∧
      (∀ v, v ≠ userId → lookup v users' = lookup v users) ∧
      (r.RowType ≠ "event" → r.RowType ≠ "attributes" →
        users' = users ∧ uniqueIDs' = uniqueIDs) :=
  processRow_step_frame users uniqueIDs r userId h

/-- C19 at a record of user 5 with the type `purchase`, from a table that
holds the users 1 and 5. -/
theorem processRow_frame_witness :
    ∃ (users' : Users) (uniqueIDs' : List String),
      processRow [(1, { Events := [("login", 2)] }), (5, { Time := 7 })] ["a"]
        { UserID := "5", RowType := "purchase", Id := "b" } = some (users', uniqueIDs') ∧
      (∀ v, v ≠ 5 → lookup v users'
        = lookup v [(1, { Events := [("login", 2)] }), (5, { Time := 7 })]) ∧
      (({ UserID := "5", RowType := "purchase", Id := "b" } : row).RowType ≠ "event" →
        ({ UserID := "5", RowType := "purchase", Id := "b" } : row).RowType ≠ "attributes" →
        users' = [(1, { Events := [("login", 2)] }), (5, { Time := 7 })] ∧ uniqueIDs' = ["a"]) :=
  processRow_frame [(1, { Events := [("login", 2)] }), (5, { Time := 7 })] ["a"]
    { UserID := "5", RowType := "purchase", Id := "b" } 5 (by decide)

/-! ## The sentinel `-1` (C20) -/

theorem parseInt32_empty : parseInt32 "" = none := by decide

theorem convertToInt32_of_parse (s : String) (u : Int) (h : parseInt32 s = some u) :
    convertToInt32 s = some u := by
  have hs : s ≠ "" := by
    intro e
    rw [e, parseInt32_empty] at h
    exact Option.noConfusion h
  simp [convertToInt32, hs, h]

/-- C20: `convertToInt32` returns -1 exactly for the empty string and for the
strings that parse to -1; a record whose user id is the text `-1` leaves the
user table and the dedup set as they were; and a record whose user id parses to
an `int32` other than -1 and whose type is `event` or `attributes` is folded
without failure and leaves that user in the table. -/
theorem sentinel_collision :
    (∀ s : String, convertToInt32 s = some (-1) ↔ (s = "" ∨ parseInt32 s = some (-1)))
    ∧ (∀ (users : Users) (uniqueIDs : List String) (r : row), r.UserID = "-1" →
        processRow users uniqueIDs r = some (users, uniqueIDs))
    ∧ (∀ (users : Users) (uniqueIDs : List String) (r : row) (userId : Int),
        parseInt32 r.UserID = some userId → userId ≠ -1 →
        (r.RowType = "event" ∨ r.RowType = "attributes") →
        ∃ (users' : Users) (uniqueIDs' : List String),
          processRow users uniqueIDs r = some (users', uniqueIDs') ∧
          (lookup userId users').isSome = true) := by
  refine ⟨?_, ?_, ?_⟩
  · intro s
    by_cases hs : s = ""
    · simp [convertToInt32, hs]
    · simp [convertToInt32, hs]
  · intro users uniqueIDs r hr
    have h : convertToInt32 r.UserID = some (-1) := by rw [hr]; decide
    exact processRow_skip users uniqueIDs r h
  · intro users uniqueIDs r userId hp hid ht
    have h := convertToInt32_of_parse r.UserID userId hp
    rcases ht with ht | ht
    · cases hl : lookup userId users with
      | none =>
        exact ⟨_, _, processRow_event_new users uniqueIDs r userId h hid ht hl,
          by simp [lookup_set_self]⟩
      | some st =>
        by_cases hi : r.Id ∈ uniqueIDs
        · exact ⟨_, _, processRow_event_seen users uniqueIDs r userId st h hid ht hl hi,
            by simp [hl]⟩
        · exact ⟨_, _, processRow_event_count users uniqueIDs r userId st h hid ht hl hi,
            by simp [lookup_set_self]⟩
    · cases hl : lookup userId users with
      | none =>
        exact ⟨_, _, processRow_attributes_absent users uniqueIDs r userId h hid ht hl,
          by simp [lookup_set_self]⟩
      | some st =>
        by_cases hlt : st.Time < r.TimeStamp
        · exact ⟨_, _, processRow_attributes_newer users uniqueIDs r userId st h hid ht hl hlt,
            by simp [lookup_set_self]⟩
        · exact ⟨_, _,
            processRow_attributes_older users uniqueIDs r userId st h ht hl (not_lt.mp hlt),
            by simp [hl]⟩

/-- C20 at an event record with the user id `-1` and at one with the user id
`7`, from the empty table. -/
theorem sentinel_collision_witness :
    processRow [] [] (eventRow "-1" "login" "a") = some ([], [])
    ∧ ∃ (users' : Users) (uniqueIDs' : List String),
        processRow [] [] (eventRow "7" "login" "a") = some (users', uniqueIDs') ∧
        (lookup 7 users').isSome = true :=
  ⟨sentinel_collision.2.1 [] [] (eventRow "-1" "login" "a") (by decide),
    sentinel_collision.2.2 [] [] (eventRow "7" "login" "a") 7 (by decide) (by decide)
      (Or.inl (by decide))⟩

end SecondSolution

namespace SecondSolution

/-! ## Records without a usable user id (C13) -/

/-- C13 as stated fails on a record whose user id is the text `abc`: the
conversion panics, so the fold step does not complete. -/
theorem processRow_unparseable_counterexample :
    convertToInt32 "abc" = none
    ∧ processRow [(5, { Events := [("login", 1)] })] ["a"] (eventRow "abc" "login" "b") = none := by
  decide

/-- C13, amended: for every user table and dedup set, folding a record whose
user id is absent (empty) completes and leaves the user table and the dedup
set as they were, and folding a record whose user id is not empty and does not
parse as an `int32` panics. -/
theorem processRow_unusable_user_id (users : Users) (uniqueIDs : List String) (r : row) :
    (r.UserID = "" → processRow users uniqueIDs r = some (users, uniqueIDs))
    ∧ (r.UserID ≠ "" → parseInt32 r.UserID = none → processRow users uniqueIDs r = none) := by
  constructor
  · intro h
    have hc : convertToInt32 r.UserID = some (-1) := by simp [convertToInt32, h]
    exact processRow_skip users uniqueIDs r hc
  · intro h hp
    simp [processRow, convertToInt32, h, hp]

/-- C13, amended, at a record without a user id and at one with the user id
`abc`. -/
theorem processRow_unusable_user_id_witness :
    processRow [(5, { Events := [("login", 1)] })] ["a"] (eventRow "" "login" "b")
      = some ([(5, { Events := [("login", 1)] })], ["a"])
    ∧ processRow [(5, { Events := [("login", 1)] })] ["a"] (eventRow "abc" "login" "b") = none :=
  ⟨(processRow_unusable_user_id [(5, { Events := [("login", 1)] })] ["a"]
      (eventRow "" "login" "b")).1 (by decide),
    (processRow_unusable_user_id [(5, { Events := [("login", 1)] })] ["a"]
      (eventRow "abc" "login" "b")).2 (by decide) (by decide)⟩

/-! ## Decode errors (C14) -/

theorem loop_err (recordsToCache : Int) (msgs : List msg) :
    ∀ c : consumer, msg.err ∈ msgs → loop recordsToCache c msgs = none := by
  induction msgs with
  | nil => intro c h; exact absurd h (List.not_mem_nil _)
  | cons m msgs ih =>
    intro c h
    cases m with
    | err => simp [loop, processMsg]
    | row rp =>
      have h' : msg.err ∈ msgs := by
        rcases List.mem_cons.mp h with e | e
        · exact absurd e (by simp)
        · exact e
      simp only [loop]
      cases processMsg recordsToCache c (msg.row rp) with
      | none => rfl
      | some c' => exact ih c' h'

theorem lines_first_error (unmarshal : Bytes → row × Bool) (lines : List Bytes)
    (h : ∃ line ∈ lines, (unmarshal line).2 = true) :
    ∃ (before : List Bytes) (bad : Bytes) (after : List Bytes),
      lines = before ++ bad :: after ∧
      (∀ line ∈ before, (unmarshal line).2 = false) ∧ (unmarshal bad).2 = true := by
  induction lines with
  | nil =>
    obtain ⟨line, hl, _⟩ := h
    exact absurd hl (List.not_mem_nil _)
  | cons contents rest ih =>
    by_cases hc : (unmarshal contents).2 = true
    · exact ⟨[], contents, rest, rfl, fun _ hl => absurd hl (List.not_mem_nil _), hc⟩
    · have hrest : ∃ line ∈ rest, (unmarshal line).2 = true := by
        obtain ⟨line, hl, herr⟩ := h
        rcases List.mem_cons.mp hl with e | e
        · subst e
          exact absurd herr hc
        · exact ⟨line, e, herr⟩
      obtain ⟨before, bad, after, hsplit, hgood, hbad⟩ := ih hrest
      refine ⟨contents :: before, bad, after, by rw [hsplit]; rfl, ?_, hbad⟩
      intro line hl
      rcases List.mem_cons.mp hl with e | e
      · subst e
        simpa using hc
      · exact hgood line e

/-- What the reader sends up to the first line that fails to decode: one row
for each line before it, then the error, then the row of the line itself. -/
theorem readLines_until_error (unmarshal : Bytes → row × Bool) (bad : Bytes)
    (after : List Bytes) (hbad : (unmarshal bad).2 = true) (before : List Bytes) :
    ∀ totalBytes : Int, (∀ line ∈ before, (unmarshal line).2 = false) →
      ∃ (rows : List rowAndPosition) (pos : Int) (rest : List msg),
        rows.map rowAndPosition.r = before.map (fun line => (unmarshal line).1) ∧
        readLines unmarshal totalBytes (before ++ bad :: after)
          = rows.map msg.row
            ++ msg.err :: msg.row { r := (unmarshal bad).1, filePosition := pos } :: rest := by
  induction before with
  | nil =>
    intro totalBytes _
    exact ⟨[], wrapInt64 (totalBytes + ((bad.length : Int) + 1)),
      readLines unmarshal (wrapInt64 (totalBytes + ((bad.length : Int) + 1))) after, rfl,
      by simp [readLines, hbad]⟩
  | cons contents before ih =>
    intro totalBytes hgood
    have hc : (unmarshal contents).2 = false := hgood contents (List.mem_cons_self _ _)
    obtain ⟨rows, pos, rest, hrows, hread⟩ :=
      ih (wrapInt64 (totalBytes + ((contents.length : Int) + 1)))
        (fun line hl => hgood line (List.mem_cons_of_mem _ hl))
    refine ⟨{ r := (unmarshal contents).1,
              filePosition := wrapInt64 (totalBytes + ((contents.length : Int) + 1)) } :: rows,
      pos, rest, by simp [hrows], ?_⟩
    simp [readLines, hc, hread]

/-- C14 as stated fails on the log of the sample line, the line `x` and the
sample line again, with a decoder that fails on `x`: the reader sends the error
before the row of the second line and `processRows` panics on it, while the
log without the malformed line is folded to login at 2. -/
theorem decode_error_counterexample :
    (readData sampleUnmarshal 0 (sampleLine ++ [10, 120, 10] ++ sampleLine ++ [10])).map
        (fun msgs => msgs.map (fun m => decide (m = msg.err)))
      = some [false, true, false, false]
    ∧ (readData sampleUnmarshal 0 (sampleLine ++ [10, 120, 10] ++ sampleLine ++ [10])).bind
        (processRows 100 0 []) = none
    ∧ ((readData sampleUnmarshal 0 (sampleLine ++ [10] ++ sampleLine ++ [10])).bind
        (processRows 100 0 [])).map consumer.users
      = some [(5, { Events := [("login", 2)] })] := by
  decide

/-- C14, amended: for every decoder, log, start offset, interval and
checkpoint, if one of the lines the scanner delivers fails to decode, then the
lines split at the first such line, and `readData` sends one row for each line
before it, then the error, then the row of that line; `processRows` panics on
these messages, so the run is aborted and has no final user table; and, for an
interval other than zero, the run over the messages sent before the error is
the fold of the records decoded from the lines before the malformed line. -/
theorem decode_error_aborts (unmarshal : Bytes → row × Bool) (seekTo : Int) (file : Bytes)
    (recordsToCache records : Int) (users : Users) (msgs : List msg)
    (hread : readData unmarshal seekTo file = some msgs)
    (hbad : ∃ line ∈ scanLines [] (file.drop seekTo.toNat), (unmarshal line).2 = true) :
    ∃ (before : List Bytes) (bad : Bytes) (after : List Bytes) (rows : List rowAndPosition)
      (pos : Int) (rest : List msg),
      scanLines [] (file.drop seekTo.toNat) = before ++ bad :: after ∧
      (∀ line ∈ before, (unmarshal line).2 = false) ∧ (unmarshal bad).2 = true ∧
      rows.map rowAndPosition.r = before.map (fun line => (unmarshal line).1) ∧
      msgs = rows.map msg.row
        ++ msg.err :: msg.row { r := (unmarshal bad).1, filePosition := pos } :: rest ∧
      processRows recordsToCache records users msgs = none ∧
      (recordsToCache ≠ 0 →
        (processRows recordsToCache records users (rows.map msg.row)).map
            (fun c => (c.users, c.uniqueIDs))
          = foldRows users [] (before.map (fun line => (unmarshal line).1))) := by
  unfold readData at hread
  split_ifs at hread with hneg
  have hm : msgs = readLines unmarshal seekTo (scanLines [] (file.drop seekTo.toNat)) :=
    (Option.some.inj hread).symm
  obtain ⟨before, bad, after, hsplit, hgood, hfail⟩ := lines_first_error unmarshal _ hbad
  obtain ⟨rows, pos, rest, hrows, hsent⟩ :=
    readLines_until_error unmarshal bad after hfail before seekTo hgood
  have hmsgs : msgs = rows.map msg.row
      ++ msg.err :: msg.row { r := (unmarshal bad).1, filePosition := pos } :: rest := by
    rw [hm, hsplit, hsent]
  refine ⟨before, bad, after, rows, pos, rest, hsplit, hgood, hfail, hrows, hmsgs, ?_, ?_⟩
  · rw [hmsgs]
    exact loop_err recordsToCache _ _
      (List.mem_append_right _ (List.mem_cons_self _ _))
  · intro hK
    have := loop_rows recordsToCache hK rows
      { users := users, uniqueIDs := [], filePosition := 0, totalRows := records, writes := [] }
    rw [hrows] at this
    exact this

/-- C14, amended, at the sample log with the malformed line `x`. -/
theorem decode_error_aborts_witness :
    ∃ (before : List Bytes) (bad : Bytes) (after : List Bytes) (rows : List rowAndPosition)
      (pos : Int) (rest : List msg),
      scanLines [] ((sampleLine ++ [10, 120, 10] ++ sampleLine ++ [10]).drop (0 : Int).toNat)
        = before ++ bad :: after ∧
      (∀ line ∈ before, (sampleUnmarshal line).2 = false) ∧ (sampleUnmarshal bad).2 = true ∧
      rows.map rowAndPosition.r = before.map (fun line => (sampleUnmarshal line).1) ∧
      readLines sampleUnmarshal 0
          (scanLines [] (sampleLine ++ [10, 120, 10] ++ sampleLine ++ [10]))
        = rows.map msg.row
          ++ msg.err :: msg.row { r := (sampleUnmarshal bad).1, filePosition := pos } :: rest ∧
      processRows 100 0 []
        (readLines sampleUnmarshal 0
          (scanLines [] (sampleLine ++ [10, 120, 10] ++ sampleLine ++ [10]))) = none ∧
      ((100 : Int) ≠ 0 →
        (processRows 100 0 [] (rows.map msg.row)).map (fun c => (c.users, c.uniqueIDs))
          = foldRows [] [] (before.map (fun line => (sampleUnmarshal line).1))) :=
  decode_error_aborts sampleUnmarshal 0 (sampleLine ++ [10, 120, 10] ++ sampleLine ++ [10])
    100 0 [] _ (by decide) ⟨[120], by decide, by decide⟩

end SecondSolution

namespace SecondSolution

/-! ## Event counts do not decrease (C17) -/

theorem wrapInt64_ge (x : Int) (h : x < 2 ^ 63) : x ≤ wrapInt64 x := by
  unfold wrapInt64
  omega

theorem wrapInt64_eq (x : Int) (h0 : -2 ^ 63 ≤ x) (h : x < 2 ^ 63) : wrapInt64 x = x := by
  unfold wrapInt64
  omega

/-- The two shapes of the table after a step that returns: the table before,
or the table with a new entry for the user of the record. -/
theorem processRow_cases (users users' : Users) (uniqueIDs uniqueIDs' : List String) (r : row)
    (h : processRow users uniqueIDs r = some (users', uniqueIDs')) :
    users' = users ∨
    ∃ (u : Int),
      (lookup u users = none ∧
        (users' = set u { Attributes := [], Events := [(r.EventName, 1)] } users ∨
         users' = set u { Time := r.TimeStamp, Attributes := r.Data, Events := [] } users)) ∨
      (∃ st, lookup u users = some st ∧
        (users' = set u { Events := (set r.EventName (wrapInt64 ((lookup r.EventName st.Events).getD 0 + 1)) st.Events), Attributes := st.Attributes, Time := st.Time } users ∨
         users' = set u { Events := st.Events, Attributes := r.Data, Time := r.TimeStamp }
            users)) := by
  cases hc : convertToInt32 r.UserID with
  | none => simp [processRow, hc] at h
  | some u =>
    by_cases hid : u = -1
    · subst hid
      rw [processRow_skip users uniqueIDs r hc] at h
      exact Or.inl (congrArg Prod.fst (Option.some.inj h)).symm
    by_cases ht : r.RowType = "event"
    · cases hl : lookup u users with
      | none =>
        rw [processRow_event_new users uniqueIDs r u hc hid ht hl] at h
        exact Or.inr ⟨u, Or.inl ⟨hl, Or.inl (congrArg Prod.fst (Option.some.inj h)).symm⟩⟩
      | some st =>
        by_cases hi : r.Id ∈ uniqueIDs
        · rw [processRow_event_seen users uniqueIDs r u st hc hid ht hl hi] at h
          exact Or.inl (congrArg Prod.fst (Option.some.inj h)).symm
        · rw [processRow_event_count users uniqueIDs r u st hc hid ht hl hi] at h
          exact Or.inr ⟨u, Or.inr ⟨st, hl,
            Or.inl (congrArg Prod.fst (Option.some.inj h)).symm⟩⟩
    · by_cases ht' : r.RowType = "attributes"
      · cases hl : lookup u users with
        | none =>
          rw [processRow_attributes_absent users uniqueIDs r u hc hid ht' hl] at h
          exact Or.inr ⟨u, Or.inl ⟨hl, Or.inr (congrArg Prod.fst (Option.some.inj h)).symm⟩⟩
        | some st =>
          by_cases hlt : st.Time < r.TimeStamp
          · rw [processRow_attributes_newer users uniqueIDs r u st hc hid ht' hl hlt] at h
            exact Or.inr ⟨u, Or.inr ⟨st, hl,
              Or.inr (congrArg Prod.fst (Option.some.inj h)).symm⟩⟩
          · rw [processRow_attributes_older users uniqueIDs r u st hc ht' hl (not_lt.mp hlt)] at h
            exact Or.inl (congrArg Prod.fst (Option.some.inj h)).symm
      · rw [processRow_other_type users uniqueIDs r u hc ht ht'] at h
        exact Or.inl (congrArg Prod.fst (Option.some.inj h)).symm

end SecondSolution

namespace SecondSolution

/-- C17 as stated fails on a login counter that holds the greatest `int`: the
increment wraps it to the least one. -/
theorem event_count_overflow_counterexample :
    processRow [(5, { Events := [("login", 9223372036854775807)] })] []
        (eventRow "5" "login" "a")
      = some ([(5, { Events := [("login", -9223372036854775808)] })], ["a"]) := by
  decide

/-- C17, amended: for every user table, dedup set and record on which the fold
step returns, every user present before is still present and every event
counter present before that is below the greatest `int` (2^63 - 1) has a value
greater than or equal to its previous value; and if every counter of the table
is at least 1 and below the greatest `int` before the step, every counter of
the table is at least 1 after it. -/
theorem event_counts_monotone (users users' : Users) (uniqueIDs uniqueIDs' : List String)
    (r : row) (h : processRow users uniqueIDs r = some (users', uniqueIDs')) :
    (∀ (u : Int) (st : stat), lookup u users = some st →
      ∃ st', lookup u users' = some st' ∧
        ∀ (n : String) (c : Int), lookup n st.Events = some c → c < 2 ^ 63 - 1 →
          ∃ c', lookup n st'.Events = some c' ∧ c ≤ c')
    ∧ ((∀ (u : Int) (st : stat) (n : String) (c : Int), lookup u users = some st →
          lookup n st.Events = some c → 1 ≤ c ∧ c < 2 ^ 63 - 1) →
        ∀ (u : Int) (st : stat) (n : String) (c : Int), lookup u users' = some st →
          lookup n st.Events = some c → 1 ≤ c) := by
  rcases processRow_cases users users' uniqueIDs uniqueIDs' r h with
    e | ⟨v, ⟨hv, e | e⟩ | ⟨sv, hv, e | e⟩⟩
  · subst e
    exact ⟨fun u st hu => ⟨st, hu, fun n c hc _ => ⟨c, hc, le_refl c⟩⟩,
      fun hinv u st n c hu hc => (hinv u st n c hu hc).1⟩
  · -- a user created by an event record
    subst e
    constructor
    · intro u st hu
      have hne : v ≠ u := fun e => by rw [e, hu] at hv; exact Option.noConfusion hv
      exact ⟨st, by rw [lookup_set_ne _ _ hne]; exact hu, fun n c hc _ => ⟨c, hc, le_refl c⟩⟩
    · intro hinv u st n c hu hc
      rw [lookup_set] at hu
      split_ifs at hu with huv
      · have hst := Option.some.inj hu
        subst hst
        simp only [lookup] at hc
        split_ifs at hc
        rw [← Option.some.inj hc]
      · exact (hinv u st n c hu hc).1
  · -- a user created by an attributes record
    subst e
    constructor
    · intro u st hu
      have hne : v ≠ u := fun e => by rw [e, hu] at hv; exact Option.noConfusion hv
      exact ⟨st, by rw [lookup_set_ne _ _ hne]; exact hu, fun n c hc _ => ⟨c, hc, le_refl c⟩⟩
    · intro hinv u st n c hu hc
      rw [lookup_set] at hu
      split_ifs at hu with huv
      · have hst := Option.some.inj hu
        subst hst
        exact Option.noConfusion hc
      · exact (hinv u st n c hu hc).1
  · -- a counted event of a user of the table
    subst e
    constructor
    · intro u st hu
      by_cases huv : v = u
      · subst huv
        have hst : sv = st := Option.some.inj (hv.symm.trans hu)
        subst hst
        refine ⟨_, lookup_set_self _ _ _, ?_⟩
        intro n c hc hmax
        show ∃ c', lookup n (set r.EventName _ sv.Events) = some c' ∧ c ≤ c'
        rw [lookup_set]
        split_ifs with hn
        · subst hn
          refine ⟨_, rfl, ?_⟩
          rw [hc]
          have := wrapInt64_ge (c + 1) (by omega)
          simp only [Option.getD_some]
          omega
        · exact ⟨c, hc, le_refl c⟩
      · exact ⟨st, by rw [lookup_set_ne _ _ huv]; exact hu,
          fun n c hc _ => ⟨c, hc, le_refl c⟩⟩
    · intro hinv u st n c hu hc
      rw [lookup_set] at hu
      split_ifs at hu with huv
      · have hst := Option.some.inj hu
        subst hst
        change lookup n (set r.EventName _ sv.Events) = some c at hc
        rw [lookup_set] at hc
        split_ifs at hc with hn
        · have hcv := Option.some.inj hc
          cases hold : lookup r.EventName sv.Events with
          | none =>
            rw [hold] at hcv
            rw [← hcv]
            decide
          | some c0 =>
            rw [hold] at hcv
            obtain ⟨h1, h2⟩ := hinv v sv r.EventName c0 hv hold
            have := wrapInt64_ge (c0 + 1) (by omega)
            simp only [Option.getD_some] at hcv
            omega
        · exact (hinv v sv n c hv hc).1
      · exact (hinv u st n c hu hc).1
  · -- newer attributes of a user of the table
    subst e
    constructor
    · intro u st hu
      by_cases huv : v = u
      · subst huv
        have hst : sv = st := Option.some.inj (hv.symm.trans hu)
        subst hst
        exact ⟨_, lookup_set_self _ _ _, fun n c hc _ => ⟨c, hc, le_refl c⟩⟩
      · exact ⟨st, by rw [lookup_set_ne _ _ huv]; exact hu,
          fun n c hc _ => ⟨c, hc, le_refl c⟩⟩
    · intro hinv u st n c hu hc
      rw [lookup_set] at hu
      split_ifs at hu with huv
      · have hst := Option.some.inj hu
        subst hst
        exact (hinv v sv n c hv hc).1
      · exact (hinv u st n c hu hc).1

/-- C17, amended, at a counted login event of user 5, whose login counter
is 2. -/
theorem event_counts_monotone_witness :
    (∀ (u : Int) (st : stat), lookup u ([(5, { Events := [("login", 2)] })] : Users) = some st →
      ∃ st' : stat, lookup u ([(5, { Events := [("login", 3)] })] : Users) = some st' ∧
        ∀ (n : String) (c : Int), lookup n st.Events = some c → c < 2 ^ 63 - 1 →
          ∃ c', lookup n st'.Events = some c' ∧ c ≤ c')
    ∧ ((∀ (u : Int) (st : stat) (n : String) (c : Int),
          lookup u ([(5, { Events := [("login", 2)] })] : Users) = some st →
          lookup n st.Events = some c → 1 ≤ c ∧ c < 2 ^ 63 - 1) →
        ∀ (u : Int) (st : stat) (n : String) (c : Int),
          lookup u ([(5, { Events := [("login", 3)] })] : Users) = some st →
          lookup n st.Events = some c → 1 ≤ c) :=
  event_counts_monotone [(5, { Events := [("login", 2)] })] [(5, { Events := [("login", 3)] })]
    [] ["a"] (eventRow "5" "login" "a") (by decide)

end SecondSolution

namespace SecondSolution

/-! ## Checkpoints by the interval (C12) -/

theorem foldRows_append (a b : List row) :
    ∀ (users : Users) (uniqueIDs : List String),
      foldRows users uniqueIDs (a ++ b)
        = (foldRows users uniqueIDs a).bind (fun s => foldRows s.1 s.2 b) := by
  induction a with
  | nil => intro users uniqueIDs; simp [foldRows]
  | cons r a ih =>
    intro users uniqueIDs
    simp only [List.cons_append, foldRows]
    cases processRow users uniqueIDs r with
    | none => simp
    | some s => simp [ih]

theorem processRow_some (users : Users) (uniqueIDs : List String) (r : row)
    (h : (convertToInt32 r.UserID).isSome = true) :
    ∃ s, processRow users uniqueIDs r = some s := by
  obtain ⟨u, hu⟩ := Option.isSome_iff_exists.mp h
  obtain ⟨users', ids', e, _⟩ := processRow_step_frame users uniqueIDs r u hu
  exact ⟨_, e⟩

theorem checkpointsByRule_concat (recordsToCache c : Int) (users : Users)
    (uniqueIDs : List String) (rows : List rowAndPosition) (rp : rowAndPosition)
    (s : Users × List String)
    (hs : foldRows users uniqueIDs ((rows ++ [rp]).map rowAndPosition.r) = some s) :
    checkpointsByRule recordsToCache c users uniqueIDs (rows ++ [rp])
      = checkpointsByRule recordsToCache c users uniqueIDs rows
        ++ (if (c + ((rows.length : Int) + 1)) % recordsToCache = 0 then
              [{ records := c + ((rows.length : Int) + 1), filePosition := rp.filePosition,
                 users := s.1 }]
            else []) := by
  unfold checkpointsByRule
  rw [List.length_append, List.length_singleton, List.range_succ, List.filterMap_append]
  congr 1
  · apply List.filterMap_congr
    intro j hj
    have hj' : j < rows.length := List.mem_range.mp hj
    rw [List.getElem?_append_left hj', List.take_append_of_le_length (by omega)]
  · simp only [List.filterMap_cons, List.filterMap_nil]
    rw [List.getElem?_concat_length]
    have htake : List.take (rows.length + 1) (rows ++ [rp]) = rows ++ [rp] := by
      have := List.take_length (rows ++ [rp])
      rwa [List.length_append, List.length_singleton] at this
    rw [htake, hs]
    split_ifs <;> rfl

end SecondSolution

namespace SecondSolution

theorem loop_writes (recordsToCache : Int) (hK : recordsToCache ≠ 0) (c0 : consumer)
    (hc0 : -2 ^ 63 ≤ c0.totalRows) (rows : List rowAndPosition) :
    c0.totalRows + (rows.length : Int) < 2 ^ 63 →
    (∀ rp ∈ rows, (convertToInt32 rp.r.UserID).isSome = true) →
    ∃ final : consumer,
      loop recordsToCache c0 (rows.map msg.row) = some final ∧
      foldRows c0.users c0.uniqueIDs (rows.map rowAndPosition.r)
        = some (final.users, final.uniqueIDs) ∧
      final.totalRows = c0.totalRows + (rows.length : Int) ∧
      final.writes = c0.writes
        ++ checkpointsByRule recordsToCache c0.totalRows c0.users c0.uniqueIDs rows := by
  induction rows using List.reverseRecOn with
  | nil =>
    intro _ _
    exact ⟨c0, rfl, rfl, by simp, by simp [checkpointsByRule]⟩
  | append_singleton rows rp ih =>
    intro hlen hok
    rw [List.length_append, List.length_singleton] at hlen
    push_cast at hlen
    obtain ⟨m, hm, hfold, hrows, hwrites⟩ :=
      ih (by omega) (fun x hx => hok x (List.mem_append_left _ hx))
    obtain ⟨s, hs⟩ := processRow_some m.users m.uniqueIDs rp.r
      (hok rp (List.mem_append_right _ (List.mem_singleton_self rp)))
    obtain ⟨users', ids'⟩ := s
    have hfold' : foldRows c0.users c0.uniqueIDs ((rows ++ [rp]).map rowAndPosition.r)
        = some (users', ids') := by
      rw [List.map_append, foldRows_append, hfold]
      simp [foldRows, hs]
    have htotal : wrapInt64 (m.totalRows + 1) = c0.totalRows + ((rows.length : Int) + 1) := by
      rw [hrows, wrapInt64_eq _ (by omega) (by omega)]
      omega
    have hspec := checkpointsByRule_concat recordsToCache c0.totalRows c0.users c0.uniqueIDs
      rows rp (users', ids') hfold'
    have hloop : loop recordsToCache c0 ((rows ++ [rp]).map msg.row)
        = processMsg recordsToCache m (msg.row rp) := by
      rw [List.map_append, loop_append, hm]
      simp only [Option.some_bind, List.map_cons, List.map_nil, loop]
      cases processMsg recordsToCache m (msg.row rp) <;> rfl
    rw [hloop, hfold', hspec]
    simp only [processMsg, hs, hK, if_false, htotal]
    split_ifs with hmod
    · refine ⟨_, rfl, rfl, ?_, ?_⟩
      · simp only [List.length_append, List.length_singleton]
        push_cast
        rfl
      · simp only [hwrites, List.append_assoc]
    · refine ⟨_, rfl, rfl, ?_, ?_⟩
      · simp only [List.length_append, List.length_singleton]
        push_cast
        rfl
      · simp only [hwrites, List.append_nil]

theorem foldRows_some (rs : List row) :
    ∀ (users : Users) (uniqueIDs : List String),
      (∀ r ∈ rs, (convertToInt32 r.UserID).isSome = true) →
      ∃ s, foldRows users uniqueIDs rs = some s := by
  induction rs with
  | nil => intro users uniqueIDs _; exact ⟨_, rfl⟩
  | cons r rs ih =>
    intro users uniqueIDs hok
    obtain ⟨s, hs⟩ := processRow_some users uniqueIDs r (hok r (List.mem_cons_self _ _))
    obtain ⟨s', hs'⟩ := ih s.1 s.2 (fun x hx => hok x (List.mem_cons_of_mem _ hx))
    exact ⟨s', by simp only [foldRows, hs]; exact hs'⟩

/-- C12: for every interval K > 0, every initial records count c and every
stream of rows whose user ids all resolve (with c and c plus the number of rows
in the range of `int64`), `processRows` returns, and the checkpoints it has
written are, in order, exactly one for each row i with c + i a multiple of K,
holding records = c + i, the file position delivered with row i and the user
table folded from the first i rows (the fold of every such prefix returns). -/
theorem checkpoint_by_rule (recordsToCache c : Int) (users : Users)
    (rows : List rowAndPosition) (hK : 0 < recordsToCache) (hc : -2 ^ 63 ≤ c)
    (hlen : c + (rows.length : Int) < 2 ^ 63)
    (hok : ∀ rp ∈ rows, (convertToInt32 rp.r.UserID).isSome = true) :
    ∃ final : consumer,
      processRows recordsToCache c users (rows.map msg.row) = some final ∧
      final.writes = checkpointsByRule recordsToCache c users [] rows ∧
      final.totalRows = c + (rows.length : Int) ∧
      ∀ i : Nat, ∃ s, foldRows users [] ((rows.take i).map rowAndPosition.r) = some s := by
  obtain ⟨final, h1, _, h3, h4⟩ := loop_writes recordsToCache (ne_of_gt hK)
    { users := users, uniqueIDs := [], filePosition := 0, totalRows := c, writes := [] }
    hc rows hlen hok
  refine ⟨final, h1, by simpa using h4, h3, ?_⟩
  intro i
  apply foldRows_some
  intro r hr
  obtain ⟨rp, hrp, rfl⟩ := List.mem_map.mp hr
  exact hok rp (List.mem_of_mem_take hrp)

/-- C12 at the interval 2, the initial count 0 and four rows, the last of
which has no user id: checkpoints are written after the rows 2 and 4. -/
theorem checkpoint_by_rule_witness :
    ∃ final : consumer,
      processRows 2 0 []
        ([{ r := eventRow "5" "login" "x", filePosition := 53 },
          { r := eventRow "5" "login" "a", filePosition := 106 },
          { r := eventRow "5" "login" "a", filePosition := 159 },
          { r := eventRow "" "login" "b", filePosition := 211 }].map msg.row) = some final ∧
      final.writes = checkpointsByRule 2 0 [] []
        [{ r := eventRow "5" "login" "x", filePosition := 53 },
         { r := eventRow "5" "login" "a", filePosition := 106 },
         { r := eventRow "5" "login" "a", filePosition := 159 },
         { r := eventRow "" "login" "b", filePosition := 211 }] ∧
      final.totalRows = 0 + (([{ r := eventRow "5" "login" "x", filePosition := 53 },
         { r := eventRow "5" "login" "a", filePosition := 106 },
         { r := eventRow "5" "login" "a", filePosition := 159 },
         { r := eventRow "" "login" "b", filePosition := 211 }] :
           List rowAndPosition).length : Int) ∧
      ∀ i : Nat, ∃ s, foldRows [] []
        ((([{ r := eventRow "5" "login" "x", filePosition := 53 },
         { r := eventRow "5" "login" "a", filePosition := 106 },
         { r := eventRow "5" "login" "a", filePosition := 159 },
         { r := eventRow "" "login" "b", filePosition := 211 }] :
           List rowAndPosition).take i).map rowAndPosition.r) = some s :=
  checkpoint_by_rule 2 0 []
    [{ r := eventRow "5" "login" "x", filePosition := 53 },
     { r := eventRow "5" "login" "a", filePosition := 106 },
     { r := eventRow "5" "login" "a", filePosition := 159 },
     { r := eventRow "" "login" "b", filePosition := 211 }]
    (by decide) (by decide) (by decide) (by decide)

end SecondSolution

namespace SecondSolution

/-! ## Order of the report (C15) -/

theorem keys_set {K V : Type} [DecidableEq K] (k : K) (v : V) (m : List (K × V)) :
    keys (set k v m) = if k ∈ keys m then keys m else keys m ++ [k] := by
  induction m with
  | nil => simp [set, keys]
  | cons p m ih =>
    obtain ⟨k', v'⟩ := p
    by_cases h : k' = k
    · subst h
      simp [set, keys]
    · have h' : ¬ k = k' := fun e => h e.symm
      simp only [set, h, if_false]
      unfold keys at ih ⊢
      simp only [List.map_cons, List.mem_cons, h', false_or, ih]
      split_ifs <;> simp

theorem keys_set_nodup {K V : Type} [DecidableEq K] (k : K) (v : V) (m : List (K × V))
    (h : (keys m).Nodup) : (keys (set k v m)).Nodup := by
  rw [keys_set]
  split_ifs with hk
  · exact h
  · exact List.Nodup.append h (List.nodup_singleton k) (by simpa using hk)

/-- The fold step keeps the user table a map: no user id twice. -/
theorem processRow_keys_nodup (users users' : Users) (uniqueIDs uniqueIDs' : List String)
    (r : row) (h : processRow users uniqueIDs r = some (users', uniqueIDs'))
    (hmap : (keys users).Nodup) : (keys users').Nodup := by
  rcases processRow_cases users users' uniqueIDs uniqueIDs' r h with
    e | ⟨v, ⟨_, e | e⟩ | ⟨sv, _, e | e⟩⟩ <;> subst e
  · exact hmap
  all_goals exact keys_set_nodup _ _ _ hmap

/-- C15: for every user table (a map: no user id twice), the list of user ids
that `Process` hands to `writeResultToFile` is a permutation of the keys of the
table, has no repetition and is in strictly ascending numeric order; a table
that holds the users 10, 1 and 2 gives the list 1, 2, 10. -/
theorem report_order (users : Users) (hmap : (keys users).Nodup) :
    (userIds users).Perm (keys users)
    ∧ (userIds users).Nodup
    ∧ (userIds users).Sorted (fun a b => a < b)
    ∧ userIds [(10, {}), (1, { Events := [("login", 1)] }), (2, {})] = [1, 2, 10] := by
  have hperm : (userIds users).Perm (keys users) := List.perm_insertionSort _ _
  have hnodup : (userIds users).Nodup := hperm.nodup_iff.mpr hmap
  have hsorted : (userIds users).Sorted (fun a b => a ≤ b) := List.sorted_insertionSort _ _
  exact ⟨hperm, hnodup, hsorted.lt_of_le hnodup, by decide⟩

/-- C15 at the table that holds the users 10, 1 and 2. -/
theorem report_order_witness :
    (userIds [(10, {}), (1, { Events := [("login", 1)] }), (2, {})]).Perm
        (keys ([(10, {}), (1, { Events := [("login", 1)] }), (2, {})] : Users))
    ∧ (userIds [(10, {}), (1, { Events := [("login", 1)] }), (2, {})]).Nodup
    ∧ (userIds [(10, {}), (1, { Events := [("login", 1)] }), (2, {})]).Sorted
        (fun a b => a < b)
    ∧ userIds [(10, {}), (1, { Events := [("login", 1)] }), (2, {})] = [1, 2, 10] :=
  report_order [(10, {}), (1, { Events := [("login", 1)] }), (2, {})] (by decide)

end SecondSolution

namespace SecondSolution

/-! ## Format of a report line (C16) -/

theorem lookup_of_mem_keys {K V : Type} [DecidableEq K] (k : K) (m : List (K × V))
    (h : k ∈ keys m) : ∃ v, lookup k m = some v ∧ (k, v) ∈ m := by
  induction m with
  | nil => simp [keys] at h
  | cons p m ih =>
    obtain ⟨k', v'⟩ := p
    by_cases hk : k' = k
    · subst hk
      exact ⟨v', by simp [lookup], List.mem_cons_self _ _⟩
    · have hmem : k ∈ keys m := by
        have h' : k = k' ∨ k ∈ keys m := by simpa [keys] using h
        rcases h' with e | e
        · exact absurd e.symm hk
        · exact e
      obtain ⟨v, hv, hin⟩ := ih hmem
      exact ⟨v, by simp [lookup, hk, hv], List.mem_cons_of_mem _ hin⟩

theorem sorted_keys_strict (l : List String) (hl : l.Nodup) :
    ((l.insertionSort (fun a b => a.toList ≤ b.toList)).Perm l)
    ∧ (l.insertionSort (fun a b => a.toList ≤ b.toList)).Sorted strLess := by
  haveI : IsTotal String (fun a b => a.toList ≤ b.toList) := ⟨fun a b => le_total _ _⟩
  haveI : IsTrans String (fun a b => a.toList ≤ b.toList) := ⟨fun _ _ _ h1 h2 => le_trans h1 h2⟩
  have hperm := List.perm_insertionSort (fun (a b : String) => a.toList ≤ b.toList) l
  have hsorted := List.sorted_insertionSort (fun (a b : String) => a.toList ≤ b.toList) l
  have hnodup : (l.insertionSort (fun a b => a.toList ≤ b.toList)).Nodup :=
    hperm.nodup_iff.mpr hl
  refine ⟨hperm, ?_⟩
  have hboth := List.Pairwise.and hsorted hnodup
  refine List.Pairwise.imp ?_ hboth
  intro a b hab
  exact lt_of_le_of_ne hab.1 (fun e => hab.2 (String.ext e))

theorem comma_join (a : String) (fs : List String) :
    "," ++ join "," (a :: fs) = commaFields (a :: fs) := by
  induction fs generalizing a with
  | nil => simp [join, commaFields]
  | cons b rest ih =>
    have := ih b
    simp only [join, commaFields] at this ⊢
    rw [← this]
    simp only [String.append_assoc]

/-- C16 as stated fails on a user without attributes and without events (one
created by an attributes record with empty data): the line is the user id, a
comma and the newline, not the user id and the newline. -/
theorem report_line_empty_counterexample :
    (processRow [] [] (attributesRow "5" [] 3)).map Prod.fst = some [(5, { Time := 3 })]
    ∧ reportLine 5 { Time := 3 } = "5,\n"
    ∧ reportLine 5 { Time := 3 } ≠ toString (5 : Int) ++ commaFields (fields { Time := 3 }) ++ "\n" := by
  decide

/-- C16, amended: for every user id and every stat whose attributes and events
are maps and whose attribute values are strings, the line written for the user
is the decimal user id, then the fields, then a newline, where the fields are
one `name=value` per attribute followed by one `name=count` per event, each
attribute and each event exactly once, the attribute keys and the event keys
each in strictly ascending order; each field follows a comma, and when there
is no field at all a single comma follows the user id. -/
theorem report_line_format (u : Int) (s : stat)
    (hattr : (keys s.Attributes).Nodup) (hev : (keys s.Events).Nodup)
    (hstr : ∀ k v, (k, v) ∈ s.Attributes → ∃ t, v = Value.str t) :
    ∃ aks eks : List String,
      aks.Perm (keys s.Attributes) ∧ aks.Sorted strLess ∧
      eks.Perm (keys s.Events) ∧ eks.Sorted strLess ∧
      (∀ k ∈ aks, ∃ t, lookup k s.Attributes = some (Value.str t) ∧
        sprintS (lookup k s.Attributes) = t) ∧
      (∀ k ∈ eks, ∃ c, lookup k s.Events = some c ∧ (lookup k s.Events).getD 0 = c) ∧
      fields s = aks.map (fun k => k ++ "=" ++ sprintS (lookup k s.Attributes))
        ++ eks.map (fun k => k ++ "=" ++ toString ((lookup k s.Events).getD 0)) ∧
      reportLine u s
        = toString u ++ (if fields s = [] then "," else commaFields (fields s)) ++ "\n" := by
  obtain ⟨hap, has⟩ := sorted_keys_strict (keys s.Attributes) hattr
  obtain ⟨hep, hes⟩ := sorted_keys_strict (keys s.Events) hev
  refine ⟨sortAttrKeys s.Attributes, sortEventKeys s.Events, hap, has, hep, hes, ?_, ?_, rfl, ?_⟩
  · intro k hk
    obtain ⟨v, hv, hin⟩ := lookup_of_mem_keys k s.Attributes (hap.subset hk)
    obtain ⟨t, rfl⟩ := hstr k v hin
    exact ⟨t, hv, by rw [hv]; rfl⟩
  · intro k hk
    obtain ⟨c, hc, _⟩ := lookup_of_mem_keys k s.Events (hep.subset hk)
    exact ⟨c, hc, by rw [hc]; rfl⟩
  · unfold reportLine stat.String
    cases hf : fields s with
    | nil => simp [join, String.append_assoc]
    | cons a fs =>
      simp only [if_neg (List.cons_ne_nil a fs)]
      rw [← comma_join a fs]
      simp only [String.append_assoc]

/-- C16, amended, at user 5 with the attributes plan and age and the events
login and a. -/
theorem report_line_format_witness :
    ∃ aks eks : List String,
      aks.Perm (keys sampleStat.Attributes) ∧ aks.Sorted strLess ∧
      eks.Perm (keys sampleStat.Events) ∧ eks.Sorted strLess ∧
      (∀ k ∈ aks, ∃ t, lookup k sampleStat.Attributes = some (Value.str t) ∧
        sprintS (lookup k sampleStat.Attributes) = t) ∧
      (∀ k ∈ eks, ∃ c, lookup k sampleStat.Events = some c ∧
        (lookup k sampleStat.Events).getD 0 = c) ∧
      fields sampleStat
        = aks.map (fun k => k ++ "=" ++ sprintS (lookup k sampleStat.Attributes))
          ++ eks.map (fun k => k ++ "=" ++ toString ((lookup k sampleStat.Events).getD 0)) ∧
      reportLine 5 sampleStat
        = toString (5 : Int)
          ++ (if fields sampleStat = [] then "," else commaFields (fields sampleStat)) ++ "\n" :=
  report_line_format 5 sampleStat (by decide) (by decide)
    (by
      intro k v h
      simp only [sampleStat, List.mem_cons, List.mem_singleton, Prod.mk.injEq,
        List.not_mem_nil, or_false] at h
      rcases h with ⟨_, rfl⟩ | ⟨_, rfl⟩
      · exact ⟨"gold", rfl⟩
      · exact ⟨"3", rfl⟩)

end SecondSolution

namespace SecondSolution

/-! ## Decimal numbers -/

theorem digitChar_lt_ten (k : Nat) (h : k < 10) :
    48 ≤ (Nat.digitChar k).toNat ∧ (Nat.digitChar k).toNat ≤ 57 ∧
      (Nat.digitChar k).toNat - 48 = k := by
  interval_cases k <;> decide

theorem toDigitsCore_decimal (fuel : Nat) :
    ∀ (n : Nat) (ds : List Char), n < fuel →
      ∃ pre : List Char, Nat.toDigitsCore 10 fuel n ds = pre ++ ds ∧ pre ≠ [] ∧
        (∀ c ∈ pre, 48 ≤ c.toNat ∧ c.toNat ≤ 57) ∧
        pre.foldl (fun a d => 10 * a + (d.toNat - 48)) 0 = n := by
  induction fuel with
  | zero => intro n ds h; exact absurd h (Nat.not_lt_zero n)
  | succ fuel ih =>
    intro n ds hn
    have hd := digitChar_lt_ten (n % 10) (Nat.mod_lt n (by decide))
    by_cases h0 : n / 10 = 0
    · refine ⟨[Nat.digitChar (n % 10)], by simp [Nat.toDigitsCore, h0], by simp, ?_, ?_⟩
      · intro c hc
        rw [List.mem_singleton.mp hc]
        exact ⟨hd.1, hd.2.1⟩
      · simp only [List.foldl_cons, List.foldl_nil]
        rw [hd.2.2]
        omega
    · obtain ⟨pre, hpre, _, hall, hval⟩ :=
        ih (n / 10) (Nat.digitChar (n % 10) :: ds) (by omega)
      refine ⟨pre ++ [Nat.digitChar (n % 10)], ?_, by simp, ?_, ?_⟩
      · simp only [Nat.toDigitsCore, h0, if_false, hpre, List.append_assoc,
          List.singleton_append]
      · intro c hc
        rcases List.mem_append.mp hc with h | h
        · exact hall c h
        · rw [List.mem_singleton.mp h]
          exact ⟨hd.1, hd.2.1⟩
      · rw [List.foldl_append, hval]
        simp only [List.foldl_cons, List.foldl_nil]
        rw [hd.2.2]
        omega

/-- The bytes of the decimal text of a natural number below 2^63: at least
one, at most 19, all of them digits, with the number as their value. -/
theorem decimal_ofNat (m : Nat) (hm : m < 2 ^ 63) :
    decimal (m : Int) ≠ [] ∧ (decimal (m : Int)).length ≤ 19 ∧
      (∀ b ∈ decimal (m : Int), 48 ≤ b ∧ b ≤ 57) ∧
      (decimal (m : Int)).foldl (fun a d => 10 * a + (d - 48)) 0 = m := by
  have hdec : decimal (m : Int) = (Nat.toDigits 10 m).map Char.toNat := rfl
  obtain ⟨pre, hpre, hne, hall, hval⟩ := toDigitsCore_decimal (m + 1) m [] (Nat.lt_succ_self m)
  have htd : Nat.toDigits 10 m = pre := by
    unfold Nat.toDigits
    rw [hpre, List.append_nil]
  have hlen : (Nat.toDigits 10 m).length ≤ 19 :=
    Nat.repr_length m 19 (by decide) (lt_of_lt_of_le hm (by norm_num))
  rw [hdec, htd]
  rw [htd] at hlen
  refine ⟨by simpa using hne, by simpa using hlen, ?_, ?_⟩
  · intro b hb
    obtain ⟨c, hc, rfl⟩ := List.mem_map.mp hb
    exact hall c hc
  · rw [List.foldl_map]
    exact hval

theorem parseInt64_decimal (m : Nat) (hm : m < 2 ^ 63) :
    parseInt64 (decimal (m : Int)) = some (m : Int) := by
  obtain ⟨hne, _, hall, hval⟩ := decimal_ofNat m hm
  cases hd : decimal (m : Int) with
  | nil => exact absurd hd hne
  | cons c cs =>
    rw [hd] at hall hval
    have hc := hall c (List.mem_cons_self _ _)
    have h43 : c ≠ 43 := by omega
    have h45 : c ≠ 45 := by omega
    have hdigits : (c :: cs).all (fun d => decide (48 ≤ d ∧ d ≤ 57)) = true := by
      rw [List.all_eq_true]
      intro x hx
      exact decide_eq_true (hall x hx)
    have hlt : ¬ ((c :: cs).foldl (fun a d => 10 * a + (d - 48)) 0 ≥ 2 ^ 63) := by
      rw [hval]
      omega
    have hm' : ¬ (m ≥ 2 ^ 63) := by omega
    simp only [parseInt64, h43, h45, or_self, if_false, decide_False, hdigits, hval]
    simp only [List.cons_ne_nil, not_true_eq_false, or_self, if_false, Bool.false_eq_true,
      false_and, not_false_eq_true, true_and, hm']

theorem splitLine_line (bs rest : Bytes) (h : 10 ∉ bs) :
    splitLine (bs ++ 10 :: rest) = (bs, some rest) := by
  induction bs with
  | nil => simp [splitLine]
  | cons b bs ih =>
    have hb : b ≠ 10 := fun e => h (by simp [e])
    have hbs : 10 ∉ bs := fun e => h (List.mem_cons_of_mem _ e)
    simp [splitLine, hb, ih hbs]

theorem readLine_decimal (m : Nat) (hm : m < 2 ^ 63) (rest : Bytes) :
    readLine (decimal (m : Int) ++ [10] ++ rest) = some (decimal (m : Int), rest) := by
  obtain ⟨hne, hlen, hall, _⟩ := decimal_ofNat m hm
  have h10 : 10 ∉ decimal (m : Int) := fun h => by have := hall 10 h; omega
  have h13 : (decimal (m : Int)).getLast? ≠ some 13 := by
    intro h
    have := hall 13 (List.mem_of_getLast?_eq_some h)
    omega
  have hdata : decimal (m : Int) ++ [10] ++ rest ≠ [] := by simp
  have hin : 10 ∈ (decimal (m : Int) ++ [10] ++ rest).take defaultBufSize := by
    rw [List.append_assoc, List.take_append_eq_append_take,
      List.take_of_length_le (by unfold defaultBufSize; omega)]
    have hpos : 0 < defaultBufSize - (decimal (m : Int)).length := by
      unfold defaultBufSize
      omega
    obtain ⟨k, hk⟩ := Nat.exists_eq_succ_of_ne_zero (Nat.pos_iff_ne_zero.mp hpos)
    rw [hk]
    simp
  have hsplit : splitLine (decimal (m : Int) ++ [10] ++ rest) = (decimal (m : Int), some rest) := by
    rw [List.append_assoc]
    exact splitLine_line _ _ h10
  unfold readLine
  rw [if_neg hdata, if_neg (fun h => h.2 hin), hsplit]
  simp only [if_neg h13]

/-! ## Round trip of a checkpoint (C11) -/

/-- C11: for every records count and file position in the non-negative range
of `int64` and every user table that `json.Unmarshal` reads back from the text
`json.MarshalIndent` gives for it, `writeToCache` on a file without previous
content followed by `readCache` into an empty table returns the same records
count, the same file position and the same user table. -/
theorem checkpoint_round_trip (marshalIndent : Users → Bytes)
    (unmarshal : Bytes → Users → Option Users) (records filePosition : Int) (users : Users)
    (hr : 0 ≤ records) (hr' : records < 2 ^ 63)
    (hp : 0 ≤ filePosition) (hp' : filePosition < 2 ^ 63)
    (hjson : unmarshal (marshalIndent users) [] = some users) :
    readCache unmarshal (some (writeToCache marshalIndent [] records filePosition users)) []
      = some (records, filePosition, users) := by
  obtain ⟨m, rfl⟩ := Int.eq_ofNat_of_zero_le hr
  obtain ⟨k, rfl⟩ := Int.eq_ofNat_of_zero_le hp
  have hm : m < 2 ^ 63 := by exact_mod_cast hr'
  have hk : k < 2 ^ 63 := by exact_mod_cast hp'
  have hfile : writeToCache marshalIndent [] (m : Int) (k : Int) users
      = decimal (m : Int) ++ [10] ++ (decimal (k : Int) ++ [10] ++ marshalIndent users) := by
    simp [writeToCache, writeAtStart, bytesToWrite]
  simp only [readCache, hfile, readLine_decimal m hm, parseInt64_decimal m hm,
    readLine_decimal k hk, parseInt64_decimal k hk, hjson]

/-- C11 at the records count 12, the file position 345 and the sample table. -/
theorem checkpoint_round_trip_witness :
    readCache sampleUnmarshalUsers
        (some (writeToCache sampleMarshalIndent [] 12 345 sampleUsers)) []
      = some (12, 345, sampleUsers) :=
  checkpoint_round_trip sampleMarshalIndent sampleUnmarshalUsers 12 345 sampleUsers
    (by decide) (by decide) (by decide) (by decide) (by decide)

end SecondSolution

namespace FirstSolution

open SecondSolution (lookup set wrapInt64 lookup_set lookup_set_self lookup_set_ne)

/-! ## Event counts of the first solution (C18) -/

theorem duplicated_iff (ids : List String) (id : String) :
    duplicated ids id = true ↔ id ∈ ids := by
  induction ids with
  | nil => simp [duplicated]
  | cons i rest ih =>
    by_cases h : i = id
    · simp [duplicated, h]
    · have h' : ¬ id = i := fun e => h e.symm
      simp [duplicated, h, h', ih]

/-- The event entry of a user and an event name after one record. -/
theorem eventOf_processRecord (stats : List (String × Stat)) (m : Record)
    (userID name : String) :
    eventOf (processRecord stats m) userID name =
      if m.RecType = "event" ∧ m.UserID = userID ∧ m.Name = name then
        match eventOf stats userID name with
        | none => some { IDs := [m.ID], Count := 1 }
        | some ev =>
          if duplicated ev.IDs m.ID then some ev
          else some { IDs := ev.IDs ++ [m.ID], Count := wrapInt64 (ev.Count + 1) }
      else eventOf stats userID name := by
  by_cases hu : m.UserID = userID
  · subst hu
    cases hl : lookup m.UserID stats with
    | none =>
      by_cases ht : m.RecType = "event"
      · by_cases hn : m.Name = name
        · simp [eventOf, processRecord, hl, ht, hn, lookup_set, lookup]
        · simp [eventOf, processRecord, hl, ht, hn, lookup_set, lookup]
      · by_cases ht' : m.RecType = "attributes"
        · simp [eventOf, processRecord, hl, ht, ht', lookup_set, lookup]
        · simp [eventOf, processRecord, hl, ht, ht', lookup_set, lookup]
    | some s0 =>
      by_cases ht : m.RecType = "event"
      · by_cases hn : m.Name = name
        · subst hn
          cases he : lookup m.Name s0.Events with
          | none => simp [eventOf, processRecord, hl, ht, he, lookup_set]
          | some ev =>
            by_cases hd : duplicated ev.IDs m.ID = true
            · simp [eventOf, processRecord, hl, ht, he, hd]
            · simp [eventOf, processRecord, hl, ht, he, hd, lookup_set]
        · cases he : lookup m.Name s0.Events with
          | none => simp [eventOf, processRecord, hl, ht, he, hn, lookup_set]
          | some ev =>
            by_cases hd : duplicated ev.IDs m.ID = true
            · simp [eventOf, processRecord, hl, ht, he, hd, hn]
            · simp [eventOf, processRecord, hl, ht, he, hd, hn, lookup_set]
      · by_cases ht' : m.RecType = "attributes"
        · simp [eventOf, processRecord, hl, ht, ht', lookup_set]
        · simp [eventOf, processRecord, hl, ht, ht']
  · have hrest : lookup userID (processRecord stats m) = lookup userID stats := by
      cases hl : lookup m.UserID stats with
      | none =>
        by_cases ht : m.RecType = "event"
        · cases he : lookup m.Name ({} : Stat).Events with
          | none => simp [processRecord, hl, ht, lookup_set, lookup, hu]
          | some ev => simp [lookup] at he
        · by_cases ht' : m.RecType = "attributes"
          · simp [processRecord, hl, ht, ht', lookup_set, hu]
          · simp [processRecord, hl, ht, ht', lookup_set, hu]
      | some s0 =>
        by_cases ht : m.RecType = "event"
        · cases he : lookup m.Name s0.Events with
          | none => simp [processRecord, hl, ht, he, lookup_set, hu]
          | some ev =>
            by_cases hd : duplicated ev.IDs m.ID = true
            · simp [processRecord, hl, ht, he, hd]
            · simp [processRecord, hl, ht, he, hd, lookup_set, hu]
        · by_cases ht' : m.RecType = "attributes"
          · simp [processRecord, hl, ht, ht', lookup_set, hu]
          · simp [processRecord, hl, ht, ht']
    simp [eventOf, hrest, hu]

end FirstSolution

namespace FirstSolution

open SecondSolution (lookup set wrapInt64 wrapInt64_eq)

theorem eventIDs_concat (userID name : String) (hist : List Record) (m : Record) :
    eventIDs userID name (hist ++ [m])
      = eventIDs userID name hist
        ++ (if m.RecType = "event" ∧ m.UserID = userID ∧ m.Name = name then [m.ID] else []) := by
  unfold eventIDs
  rw [List.filter_append, List.map_append]
  congr 1
  by_cases h : m.RecType = "event" ∧ m.UserID = userID ∧ m.Name = name
  · simp [List.filter, h]
  · simp [List.filter, h]

theorem counted_step (stats : List (String × Stat)) (hist : List Record) (m : Record)
    (userID name : String) (hlen : hist.length + 1 < 2 ^ 63)
    (h : counted (eventOf stats userID name) (eventIDs userID name hist) hist.length) :
    counted (eventOf (processRecord stats m) userID name)
      (eventIDs userID name (hist ++ [m])) (hist.length + 1) := by
  rw [eventOf_processRecord, eventIDs_concat]
  by_cases hmatch : m.RecType = "event" ∧ m.UserID = userID ∧ m.Name = name
  · simp only [hmatch, and_self, if_true]
    cases he : eventOf stats userID name with
    | none =>
      rw [he] at h
      have hids : eventIDs userID name hist = [] := h
      simp [counted, hids]
    | some ev =>
      rw [he] at h
      obtain ⟨hnd, hcount, hmem, hne, hle⟩ := h
      by_cases hd : duplicated ev.IDs m.ID = true
      · have hin : m.ID ∈ ev.IDs := (duplicated_iff _ _).mp hd
        simp only [hd, if_true]
        refine ⟨hnd, hcount, ?_, hne, by omega⟩
        intro x
        rw [List.mem_append, List.mem_singleton, ← hmem]
        constructor
        · exact fun hx => Or.inl hx
        · rintro (hx | rfl)
          · exact hx
          · exact hin
      · have hnin : m.ID ∉ ev.IDs := fun hx => hd ((duplicated_iff _ _).mpr hx)
        simp only [hd, if_false, Bool.false_eq_true]
        refine ⟨?_, ?_, ?_, by simp, ?_⟩
        · exact List.Nodup.append hnd (List.nodup_singleton _) (by simpa using hnin)
        · show wrapInt64 (ev.Count + 1) = ((ev.IDs ++ [m.ID]).length : Int)
          rw [hcount, wrapInt64_eq _ (by omega) (by omega)]
          simp
        · intro x
          simp only [List.mem_append, List.mem_singleton, hmem]
        · simp only [List.length_append, List.length_singleton]
          omega
  · simp only [hmatch, if_false, List.append_nil]
    cases he : eventOf stats userID name with
    | none =>
      rw [he] at h
      exact h
    | some ev =>
      rw [he] at h
      obtain ⟨hnd, hcount, hmem, hne, hle⟩ := h
      exact ⟨hnd, hcount, hmem, hne, by omega⟩

theorem counted_Processing (userID name : String) (rest : List Record) :
    ∀ (stats : List (String × Stat)) (hist : List Record),
      hist.length + rest.length < 2 ^ 63 →
      counted (eventOf stats userID name) (eventIDs userID name hist) hist.length →
      counted (eventOf (Processing stats rest) userID name)
        (eventIDs userID name (hist ++ rest)) (hist ++ rest).length := by
  induction rest with
  | nil =>
    intro stats hist _ h
    simpa [Processing] using h
  | cons m rest ih =>
    intro stats hist hlen h
    rw [List.length_cons] at hlen
    have hstep := counted_step stats hist m userID name (by omega) h
    have := ih (processRecord stats m) (hist ++ [m])
      (by rw [List.length_append, List.length_singleton]; omega)
      (by rw [List.length_append, List.length_singleton]; exact hstep)
    simpa [Processing] using this

theorem counted_from_empty (userID name : String) (messages : List Record)
    (hlen : messages.length < 2 ^ 63) :
    counted (eventOf (Processing [] messages) userID name) (eventIDs userID name messages)
      messages.length := by
  have h0 : counted (eventOf [] userID name) (eventIDs userID name []) ([] : List Record).length := by
    simp [counted, eventOf, lookup, eventIDs]
  have := counted_Processing userID name messages [] [] (by simpa using hlen) h0
  simpa using this

/-- C18: in the first solution, from an empty stats table, for every log (of
fewer than 2^63 records) and every user id and event name, at every step the
Count of the event entry equals the length of its IDs list, which holds no id
twice, and when the log has an event record of that user and event name the
final Count equals the number of distinct record ids among those records. -/
theorem first_solution_event_count (messages : List Record) (hlen : messages.length < 2 ^ 63)
    (userID name : String) :
    (∀ (k : Nat) (ev : Event),
        eventOf (Processing [] (messages.take k)) userID name = some ev →
        ev.Count = (ev.IDs.length : Int) ∧ ev.IDs.Nodup)
    ∧ ((∃ m ∈ messages, m.RecType = "event" ∧ m.UserID = userID ∧ m.Name = name) →
        ∃ ev : Event, eventOf (Processing [] messages) userID name = some ev ∧
          ev.Count = ((eventIDs userID name messages).dedup.length : Int)) := by
  constructor
  · intro k ev hev
    have hk : (messages.take k).length < 2 ^ 63 := by
      rw [List.length_take]
      exact lt_of_le_of_lt (Nat.min_le_right _ _) hlen
    have h := counted_from_empty userID name (messages.take k) hk
    rw [hev] at h
    exact ⟨h.2.1, h.1⟩
  · rintro ⟨m, hm, hmatch⟩
    have h := counted_from_empty userID name messages hlen
    have hid : m.ID ∈ eventIDs userID name messages := by
      unfold eventIDs
      exact List.mem_map.mpr ⟨m, List.mem_filter.mpr ⟨hm, by simpa using hmatch⟩, rfl⟩
    cases he : eventOf (Processing [] messages) userID name with
    | none =>
      rw [he] at h
      have hnil : eventIDs userID name messages = [] := h
      rw [hnil] at hid
      exact absurd hid (List.not_mem_nil _)
    | some ev =>
      rw [he] at h
      obtain ⟨hnd, hcount, hmem, _, _⟩ := h
      refine ⟨ev, rfl, ?_⟩
      have hperm : ev.IDs.Perm (eventIDs userID name messages).dedup :=
        (List.perm_ext_iff_of_nodup hnd (List.nodup_dedup _)).mpr
          (fun x => by rw [List.mem_dedup]; exact hmem x)
      rw [hcount, hperm.length_eq]

/-- C18 at the sample log, for user 5 and the event login. -/
theorem first_solution_event_count_witness :
    (∀ (k : Nat) (ev : Event),
        eventOf (Processing [] (sampleMessages.take k)) "5" "login" = some ev →
        ev.Count = (ev.IDs.length : Int) ∧ ev.IDs.Nodup)
    ∧ ∃ ev : Event, eventOf (Processing [] sampleMessages) "5" "login" = some ev ∧
        ev.Count = ((eventIDs "5" "login" sampleMessages).dedup.length : Int) :=
  ⟨(first_solution_event_count sampleMessages (by decide) "5" "login").1,
    (first_solution_event_count sampleMessages (by decide) "5" "login").2
      ⟨{ ID := "b", RecType := "event", Name := "login", UserID := "5" }, by decide,
        by decide⟩⟩

end FirstSolution
